import Mathlib

/-! Daft Punk Tetris: the game-state engine of `src/pages/Index.jsx`.

A shallow embedding of the handlers of the `Index` component and of the pure
helpers they call.

Conventions of the embedding.

* A board cell is the number `0` or a colour string; a shape cell is a number
  (`0` or `1` in the catalogue).  Coordinates are integers.
* Reading a JavaScript array outside its index range gives `undefined`; here
  such a read gives `none`.
* A handler that raises a `TypeError` returns `none`.  The same answer is given
  where the JavaScript value would leave the types above (a shape holding
  `undefined`, a board row with a hole); each such place is marked.
* A handler is a function of the state its closure captured; the state
  setters it calls are applied to that state.  The mount effect, the timer and
  the rendering are not part of the handlers; `componentTick` adds the effect
  that follows a tick in the mounted component.
* `Math.random` is replaced by the index it selects.
-/

namespace Tetris

/-! ## Data model -/

/-- Line 4: `const BOARD_WIDTH = 10`. -/
def BOARD_WIDTH : Nat := 10

/-- Line 5: `const BOARD_HEIGHT = 20`. -/
def BOARD_HEIGHT : Nat := 20

/-- Line 6: `const INITIAL_SPEED = 1000`. -/
def INITIAL_SPEED : Nat := 1000

/-- `Number.MAX_SAFE_INTEGER`, that is `2 ^ 53 - 1`: sums of integers up to it are exact in
the arithmetic of JavaScript numbers. -/
def maxSafeInteger : Nat := 9007199254740991

/-- A board cell: the number `0`, or the colour string of the piece locked there. -/
inductive Cell where
  | empty : Cell
  | filled (color : String) : Cell
  deriving DecidableEq, Repr

/-- The board: an array of rows, each an array of cells. -/
abbrev Board := List (List Cell)

/-- An occupancy matrix: an array of rows of numbers. -/
abbrev Shape := List (List Nat)

/-- A catalogue entry `{ shape, color }`. -/
structure Tetromino where
  shape : Shape
  color : String
  deriving DecidableEq, Repr

/-- The anchor `{ x, y }`. -/
structure Pos where
  x : Int
  y : Int
  deriving DecidableEq, Repr

/-- A piece `{ pos, tetromino }`. -/
structure Piece where
  pos : Pos
  tetromino : Tetromino
  deriving DecidableEq, Repr

/-- The five `useState` cells of the component (lines 22-26).  `currentPiece` starts as
`null`, which is `none`.  `score` and `speed` are JavaScript numbers holding integers; a
natural number stands for them, which is exact as long as the values stay within
`maxSafeInteger`. -/
structure State where
  board : Board
  currentPiece : Option Piece
  gameOver : Bool
  score : Nat
  speed : Nat
  deriving DecidableEq, Repr

/-- Lines 8-9: `createEmptyBoard`. -/
def createEmptyBoard : Board :=
  List.replicate BOARD_HEIGHT (List.replicate BOARD_WIDTH Cell.empty)

/-- Lines 11-19: the catalogue, in the key order `Object.keys` returns. -/
def TETROMINOS : List (String × Tetromino) :=
  [ ("I", { shape := [[1, 1, 1, 1]], color := "bg-blue-500" }),
    ("J", { shape := [[1, 0, 0], [1, 1, 1]], color := "bg-orange-500" }),
    ("L", { shape := [[0, 0, 1], [1, 1, 1]], color := "bg-yellow-500" }),
    ("O", { shape := [[1, 1], [1, 1]], color := "bg-green-500" }),
    ("S", { shape := [[0, 1, 1], [1, 1, 0]], color := "bg-red-500" }),
    ("T", { shape := [[0, 1, 0], [1, 1, 1]], color := "bg-purple-500" }),
    ("Z", { shape := [[1, 1, 0], [0, 1, 1]], color := "bg-pink-500" }) ]

/-- The catalogue entry under the `k`-th key; the catalogue has seven entries, so the
default is never returned. -/
def tetrominoAt (k : Fin 7) : Tetromino :=
  (TETROMINOS.getD k.val ("", { shape := [], color := "" })).2

/-- Lines 28-35: `getRandomTetromino`; `k` is `Math.floor(Math.random() * 7)`. -/
def getRandomTetromino (k : Fin 7) : Piece :=
  { pos := { x := (BOARD_WIDTH : Int) / 2 - 1, y := 0 },
    tetromino := tetrominoAt k }

/-! ## Array reads -/

/-- The read `xs[i]` at an integer index: `none` stands for `undefined`. -/
def readAt {α : Type} (xs : List α) (i : Int) : Option α :=
  if i < 0 then none else xs[i.toNat]?

/-- The read `board[r][c]`, when `board[r]` is defined. -/
def cellAt (board : Board) (r c : Int) : Option Cell :=
  (readAt board r).bind (fun row => readAt row c)

/-! ## Collision (lines 37-52) -/

/-- The test of lines 41-45 at board row `r`, column `c`. -/
def hits (board : Board) (r c : Int) : Bool :=
  match readAt board r with
  | none => true
  | some row =>
    match readAt row c with
    | none => true
    | some cell => cell != Cell.empty

/-- The inner loop of `isColliding` over the cells of one shape row, from column `c` on. -/
def collidesCells (board : Board) (r : Int) : Int → List Nat → Bool
  | _, [] => false
  | c, v :: vs => (v != 0 && hits board r c) || collidesCells board r (c + 1) vs

/-- The outer loop of `isColliding` over the shape rows, from board row `r` on. -/
def collidesRows (board : Board) (px : Int) : Int → Shape → Bool
  | _, [] => false
  | r, row :: rows => collidesCells board r px row || collidesRows board px (r + 1) rows

/-- Lines 37-52: `isColliding`. -/
def isColliding (piece : Piece) (board : Board) : Bool :=
  collidesRows board piece.pos.x piece.pos.y piece.tetromino.shape

/-- The read `shape[sy][sx]` of line 40, for indices inside the loops' ranges. -/
def shapeAt (shape : Shape) (sy sx : Nat) : Option Nat :=
  shape[sy]?.bind (fun row => row[sx]?)

/-- Cell `(sx, sy)` of the shape is occupied: `shape[sy][sx]` exists and is not `0`. -/
def occupied (shape : Shape) (sy sx : Nat) : Bool :=
  match shapeAt shape sy sx with
  | some v => v != 0
  | none => false

/-! ## Rotation (lines 54-60) -/

/-- Lines 56-58: `shape[0].map((_, index) => shape.map((row) => row[index])).reverse()`,
where `C` is `shape[0].length` and every `row[index]` read is defined. -/
def transposeReversed (shape : Shape) (C : Nat) : Shape :=
  ((List.range C).map (fun index => shape.map (fun row => row.getD index 0))).reverse

/-- Lines 54-60: `rotate`, on the deep copy `JSON.parse(JSON.stringify(piece))`.  `none`
when `shape[0]` is `undefined` (a `TypeError`) and when some row is shorter than row 0 (the
result would hold `undefined`). -/
def rotate (piece : Piece) : Option Piece :=
  match piece.tetromino.shape with
  | [] => none
  | row0 :: rest =>
    if (row0 :: rest).all (fun row => decide (row0.length ≤ row.length)) then
      some { pos := piece.pos,
             tetromino :=
               { shape := transposeReversed (row0 :: rest) row0.length,
                 color := piece.tetromino.color } }
    else none

/-! ## Locking (lines 80-102) -/

/-- The assignment `newBoard[r][c] = v`.  `none` when `newBoard[r]` is `undefined` (a
`TypeError`) and when `c` is outside the row (the row would get a hole or a property). -/
def setCell (board : Board) (r c : Int) (v : Cell) : Option Board :=
  match readAt board r with
  | none => none
  | some row =>
    if 0 ≤ c ∧ c.toNat < row.length then some (board.set r.toNat (row.set c.toNat v))
    else none

/-- The inner `forEach` of lines 83-87 over one shape row, from column `c` on. -/
def placeCells (color : String) (r : Int) : Int → List Nat → Board → Option Board
  | _, [], b => some b
  | c, v :: vs, b =>
    if v ≠ 0 then (setCell b r c (Cell.filled color)).bind (placeCells color r (c + 1) vs)
    else placeCells color r (c + 1) vs b

/-- The outer `forEach` of lines 82-88 over the shape rows, from board row `r` on. -/
def placeRows (color : String) (px : Int) : Int → Shape → Board → Option Board
  | _, [], b => some b
  | r, row :: rows, b => (placeCells color r px row b).bind (placeRows color px (r + 1) rows)

/-- Lines 81-88: the placement step of `updateBoard`. -/
def placePiece (piece : Piece) (board : Board) : Option Board :=
  placeRows piece.tetromino.color piece.pos.x piece.pos.y piece.tetromino.shape board

/-- Line 91: `row.every((cell) => cell !== 0)`. -/
def isFull (row : List Cell) : Bool :=
  row.all (fun cell => cell != Cell.empty)

/-- The reducer of lines 90-97; `w` is `newBoard[0].length`, the second component counts
the calls of `setScore((prev) => prev + 10)`. -/
def clearStep (w : Nat) (acc : Board × Nat) (row : List Cell) : Board × Nat :=
  if isFull row then (List.replicate w Cell.empty :: acc.1, acc.2 + 1)
  else (acc.1 ++ [row], acc.2)

/-- Lines 90-98: the row-clearing pass of `updateBoard`, with the number of score
increments it issues. -/
def clearRows (newBoard : Board) : Board × Nat :=
  newBoard.foldl (clearStep (newBoard.headD []).length) ([], 0)

/-- Lines 80-102: `updateBoard`; `k` selects the next piece. -/
def updateBoard (s : State) (k : Fin 7) : Option State :=
  match s.currentPiece with
  | none => none
  | some piece =>
    match placePiece piece s.board with
    | none => none
    | some newBoard =>
      some { board := (clearRows newBoard).1,
             currentPiece := some (getRandomTetromino k),
             gameOver := s.gameOver,
             score := s.score + 10 * (clearRows newBoard).2,
             speed := s.speed }

/-! ## Handlers -/

/-- Lines 62-66: `movePlayer`. -/
def movePlayer (s : State) (dir : Int) : Option State :=
  match s.currentPiece with
  | none => none
  | some piece =>
    if !isColliding { piece with pos := { x := piece.pos.x + dir, y := piece.pos.y } } s.board
    then
      some { s with
        currentPiece := some { piece with pos := { x := piece.pos.x + dir, y := piece.pos.y } } }
    else some s

/-- Lines 68-78: `drop`; `k` selects the next piece when the piece locks. -/
def drop (s : State) (k : Fin 7) : Option State :=
  match s.currentPiece with
  | none => none
  | some piece =>
    if !isColliding { piece with pos := { x := piece.pos.x, y := piece.pos.y + 1 } } s.board
    then
      some { s with
        currentPiece := some { piece with pos := { x := piece.pos.x, y := piece.pos.y + 1 } } }
    else if piece.pos.y < 1 then some { s with gameOver := true }
    else updateBoard s k

/-- Lines 110-115: the rotate branch of `handleKeyPress`. -/
def rotatePlayer (s : State) : Option State :=
  match s.currentPiece with
  | none => none
  | some piece =>
    match rotate piece with
    | none => none
    | some rotatedPiece =>
      if !isColliding rotatedPiece s.board then some { s with currentPiece := some rotatedPiece }
      else some s

/-- Lines 104-116: `handleKeyPress` on `event.keyCode`. -/
def handleKeyPress (s : State) (keyCode : Nat) (k : Fin 7) : Option State :=
  if s.gameOver then some s
  else if keyCode = 37 then movePlayer s (-1)
  else if keyCode = 39 then movePlayer s 1
  else if keyCode = 40 then drop s k
  else if keyCode = 38 then rotatePlayer s
  else some s

/-! ## The board cells a piece occupies -/

/-- Offset `d` into a shape row meets an occupied cell: `row[d]` exists and is not `0`. -/
def rowCovers (row : List Nat) (d : Int) : Bool :=
  match readAt row d with
  | none => false
  | some v => v != 0

/-- Offset `(dx, dy)` into a shape meets an occupied cell. -/
def shapeCovers (shape : Shape) (dy dx : Int) : Bool :=
  match readAt shape dy with
  | none => false
  | some row => rowCovers row dx

/-- Board cell `(r, c)` is one of the cells the piece occupies. -/
def covers (piece : Piece) (r c : Int) : Bool :=
  shapeCovers piece.tetromino.shape (r - piece.pos.y) (c - piece.pos.x)

/-! ## Concrete inputs -/

/-- The catalogue entry number `k` at anchor `(x, y)`. -/
def pieceAt (k : Fin 7) (x y : Int) : Piece :=
  { pos := { x := x, y := y }, tetromino := tetrominoAt k }

/-- A board of six rows of width 2, four of them full. -/
def fourFullBoard : Board :=
  [ [Cell.empty, Cell.empty],
    [Cell.filled "a", Cell.filled "b"],
    [Cell.filled "c", Cell.filled "d"],
    [Cell.filled "e", Cell.empty],
    [Cell.filled "f", Cell.filled "g"],
    [Cell.filled "h", Cell.filled "i"] ]

/-- The empty board with its bottom row filled in columns 0 to 7. -/
def lockBoard : Board :=
  List.replicate 19 (List.replicate 10 Cell.empty) ++
    [List.replicate 8 (Cell.filled "bg-blue-500") ++ [Cell.empty, Cell.empty]]

/-- The O piece resting in the gap of `lockBoard`, at `(8, 18)`. -/
def lockState : State :=
  { board := lockBoard, currentPiece := some (pieceAt 3 8 18), gameOver := false,
    score := 0, speed := INITIAL_SPEED }

/-- The empty board with one locked cell at row 2, column 4. -/
def blockedBoard : Board :=
  createEmptyBoard.set 2
    ((List.replicate BOARD_WIDTH Cell.empty).set 4 (Cell.filled "bg-red-500"))

/-- The O piece at the spawn anchor above the locked cell of `blockedBoard`. -/
def blockedState : State :=
  { board := blockedBoard, currentPiece := some (pieceAt 3 4 0), gameOver := false,
    score := 30, speed := INITIAL_SPEED }

/-- The O piece at the spawn anchor on the empty board. -/
def freshState : State :=
  { board := createEmptyBoard, currentPiece := some (pieceAt 3 4 0), gameOver := false,
    score := 0, speed := INITIAL_SPEED }

/-- The T piece against the left wall of the empty board, at `(0, 5)`. -/
def wallState : State :=
  { board := createEmptyBoard, currentPiece := some (pieceAt 5 0 5), gameOver := false,
    score := 0, speed := INITIAL_SPEED }

/-! ## Reset, timer and runs -/

/-- Lines 155-161: the `onClick` of the reset button; `k` selects the new piece. -/
def reset (_s : State) (k : Fin 7) : State :=
  { board := createEmptyBoard,
    currentPiece := some (getRandomTetromino k),
    gameOver := false,
    score := 0,
    speed := INITIAL_SPEED }

/-- Line 128: the delay handed to `useInterval`, `gameOver ? null : speed`. -/
def tickDelay (s : State) : Option Nat :=
  if s.gameOver then none else some s.speed

/-- Modelled from the spec: `useInterval` of `src/hooks/useInterval`, which is not among
the sources.  The timer calls `drop` (lines 126-127) once per period while the delay is a
number, and is not running while the delay is `null` (section 6: the caller stops invoking
the tick while the game is over). -/
def onTick (s : State) (k : Fin 7) : Option State :=
  match tickDelay s with
  | none => some s
  | some _ => drop s k

/-- Lines 22-26 after the first run of the mount effect of line 119: the state the game
starts in; `k` selects the first piece. -/
def initial (k : Fin 7) : State :=
  { board := createEmptyBoard,
    currentPiece := some (getRandomTetromino k),
    gameOver := false,
    score := 0,
    speed := INITIAL_SPEED }

/-- What can happen to the component: a key press, a call of the timer callback of lines
126-127, a click on the reset button, a run of the effect of line 119, which spawns a piece.
Each carries the index `Math.random` selects if a piece is spawned. -/
inductive Stimulus where
  | key (keyCode : Nat) (k : Fin 7) : Stimulus
  | tick (k : Fin 7) : Stimulus
  | reset (k : Fin 7) : Stimulus
  | mount (k : Fin 7) : Stimulus
  deriving DecidableEq, Repr

/-- The state after one stimulus, each handler taken alone; the timer callback is `drop`.
What the mounted component adds after a handler is in `componentTick`. -/
def step (s : State) : Stimulus → Option State
  | Stimulus.key keyCode k => handleKeyPress s keyCode k
  | Stimulus.tick k => drop s k
  | Stimulus.reset k => some (reset s k)
  | Stimulus.mount k => some { s with currentPiece := some (getRandomTetromino k) }

/-- The state after a sequence of stimuli, handled one at a time in order. -/
def run : State → List Stimulus → Option State
  | s, [] => some s
  | s, st :: rest => (step s st).bind (fun s1 => run s1 rest)

/-! ## Concrete states and plays -/

/-- The state `blockedState` after the game has ended. -/
def overState : State :=
  { board := blockedBoard, currentPiece := some (pieceAt 3 4 0), gameOver := true,
    score := 30, speed := INITIAL_SPEED }

/-- A board row of width 10 with the cells of the given columns locked in one colour. -/
def rowOf (columns : List Nat) (color : String) : List Cell :=
  (List.range BOARD_WIDTH).map
    (fun c => if c ∈ columns then Cell.filled color else Cell.empty)

/-- A board with an overhang: four upright I pieces in column 1 (rows 4 to 19), an O piece
on top of them in columns 0 and 1 (rows 2 and 3), and an I piece lying on the O piece in
row 1, columns 1 to 4, so that `(1, 4)` is locked and `(2, 4)` is free. -/
def overhangBoard : Board :=
  [ rowOf [] "",
    rowOf [1, 2, 3, 4] "bg-blue-500",
    rowOf [0, 1] "bg-green-500",
    rowOf [0, 1] "bg-green-500" ] ++
    List.replicate 16 (rowOf [1] "bg-blue-500")

/-- The S piece freshly spawned on `overhangBoard`. -/
def overhangState : State :=
  { board := overhangBoard, currentPiece := some (getRandomTetromino 4), gameOver := false,
    score := 0, speed := INITIAL_SPEED }

/-- The play of one upright I piece into column 1: rotate, three moves to the left, then
`n` ticks, the last of which locks the piece and spawns the piece number `next`. -/
def uprightIPlay (n : Nat) (next : Fin 7) : List Stimulus :=
  [Stimulus.key 38 0, Stimulus.key 37 0, Stimulus.key 37 0, Stimulus.key 37 0] ++
    List.replicate (n - 1) (Stimulus.tick 0) ++ [Stimulus.tick next]

/-- A play from the start that ends in `overhangState`. -/
def overhangPlay : List Stimulus :=
  uprightIPlay 17 0 ++ uprightIPlay 13 0 ++ uprightIPlay 9 0 ++ uprightIPlay 5 3 ++
    [Stimulus.key 37 0, Stimulus.key 37 0, Stimulus.key 37 0, Stimulus.key 37 0,
     Stimulus.tick 0, Stimulus.tick 0, Stimulus.tick 0] ++
    [Stimulus.key 37 0, Stimulus.key 37 0, Stimulus.key 37 0,
     Stimulus.tick 0, Stimulus.tick 4]

/-! ## The invariant of play -/

/-- What every state of a play satisfies: the board has 20 rows of 10 cells, its row 0
holds no locked cell, and there is an active piece, which does not collide with the board
once its anchor is below row 0. -/
structure Sound (s : State) : Prop where
  rows : s.board.length = BOARD_HEIGHT
  cols : ∀ row ∈ s.board, row.length = BOARD_WIDTH
  top : ∀ (c : Int) (cell : Cell), cellAt s.board 0 c = some cell → cell = Cell.empty
  piece : ∃ piece, s.currentPiece = some piece ∧
    (1 ≤ piece.pos.y → isColliding piece s.board = false)

/-- The catalogue entry number `k` at `(4, y)` on the empty board, `y` rows below the spawn
anchor, with nothing else changed since the start. -/
def fallingState (k : Fin 7) (y : Nat) : State :=
  { board := createEmptyBoard, currentPiece := some (pieceAt k 4 y), gameOver := false,
    score := 0, speed := INITIAL_SPEED }

/-! ## The mounted component -/

/-- A tick as the mounted component performs it: the timer callback `drop` (lines 126-127),
then the effect of lines 118-124.  The effect depends on `handleKeyPress` (line 124), which
is renewed whenever `currentPiece`, `board` or `gameOver` is set (line 116); `drop` sets one
of them with a new value each time it returns, and so does line 119 itself, so the effect
runs again after every tick and replaces the piece by a new one at the spawn anchor.  `kr`
selects the piece in place when the next stimulus arrives. -/
def componentTick (s : State) (k kr : Fin 7) : Option State :=
  (drop s k).bind (fun s1 => step s1 (Stimulus.mount kr))

/-- A sequence of ticks of the mounted component; each entry holds the index for a lock in
`drop` and the index for the spawn of the effect. -/
def componentTicks : State → List (Fin 7 × Fin 7) → Option State
  | s, [] => some s
  | s, (k, kr) :: rest => (componentTick s k kr).bind (fun s1 => componentTicks s1 rest)

/-- A play from the start: two I pieces are laid flat on the floor in columns 0 to 3 and 4
to 7, and the O piece is moved over columns 8 and 9 and falls to `(8, 18)`.  It ends in
`lockState`. -/
def lockPlay : List Stimulus :=
  [Stimulus.key 37 0, Stimulus.key 37 0, Stimulus.key 37 0, Stimulus.key 37 0] ++
    List.replicate 19 (Stimulus.tick 0) ++ [Stimulus.tick 0] ++
    List.replicate 19 (Stimulus.tick 0) ++ [Stimulus.tick 3] ++
    [Stimulus.key 39 0, Stimulus.key 39 0, Stimulus.key 39 0, Stimulus.key 39 0] ++
    List.replicate 18 (Stimulus.tick 0)

/-! ## Collision: what the loops compute -/

theorem hits_eq_false_iff (board : Board) (r c : Int) :
    hits board r c = false ↔ cellAt board r c = some Cell.empty := by
  unfold hits cellAt
  cases h1 : readAt board r with
  | none => simp
  | some row =>
    cases h2 : readAt row c with
    | none => simp [h2]
    | some cell => simp [h2]

theorem occupied_iff (shape : Shape) (sy sx : Nat) :
    occupied shape sy sx = true ↔
      ∃ row v, shape[sy]? = some row ∧ row[sx]? = some v ∧ v ≠ 0 := by
  unfold occupied shapeAt
  cases h1 : shape[sy]? with
  | none => simp
  | some row =>
    cases h2 : row[sx]? with
    | none => simp [h2]
    | some v => simp [h2]

theorem collidesCells_iff (board : Board) (r : Int) (vs : List Nat) :
    ∀ c : Int, collidesCells board r c vs = true ↔
      ∃ (i : Nat) (v : Nat), vs[i]? = some v ∧ v ≠ 0 ∧ hits board r (c + i) = true := by
  induction vs with
  | nil => intro c; simp [collidesCells]
  | cons v vs ih =>
    intro c
    simp only [collidesCells, Bool.or_eq_true, Bool.and_eq_true, ih, bne_iff_ne]
    constructor
    · rintro (⟨hv, hh⟩ | ⟨i, w, hi, hw, hh⟩)
      · exact ⟨0, v, by simp, hv, by simpa using hh⟩
      · refine ⟨i + 1, w, by simpa using hi, hw, ?_⟩
        have e : c + ((i + 1 : Nat) : Int) = c + 1 + (i : Int) := by push_cast; ring
        rw [e]; exact hh
    · rintro ⟨i, w, hi, hw, hh⟩
      cases i with
      | zero =>
        left
        simp at hi
        subst hi
        exact ⟨hw, by simpa using hh⟩
      | succ i =>
        right
        refine ⟨i, w, by simpa using hi, hw, ?_⟩
        have e : c + ((i + 1 : Nat) : Int) = c + 1 + (i : Int) := by push_cast; ring
        rw [← e]; exact hh

theorem collidesRows_iff (board : Board) (px : Int) (rows : Shape) :
    ∀ r : Int, collidesRows board px r rows = true ↔
      ∃ (sy sx : Nat), occupied rows sy sx = true ∧ hits board (r + sy) (px + sx) = true := by
  induction rows with
  | nil => intro r; simp [collidesRows, occupied, shapeAt]
  | cons row rows ih =>
    intro r
    simp only [collidesRows, Bool.or_eq_true, ih, collidesCells_iff, occupied_iff]
    constructor
    · rintro (⟨i, v, hi, hv, hh⟩ | ⟨sy, sx, ⟨row1, v, h1, h2, hv⟩, hh⟩)
      · exact ⟨0, i, ⟨row, v, by simp, hi, hv⟩, by simpa using hh⟩
      · refine ⟨sy + 1, sx, ⟨row1, v, by simpa using h1, h2, hv⟩, ?_⟩
        have e : r + ((sy + 1 : Nat) : Int) = r + 1 + (sy : Int) := by push_cast; ring
        rw [e]; exact hh
    · rintro ⟨sy, sx, ⟨row1, v, h1, h2, hv⟩, hh⟩
      cases sy with
      | zero =>
        left
        simp at h1
        subst h1
        exact ⟨sx, v, h2, hv, by simpa using hh⟩
      | succ sy =>
        right
        refine ⟨sy, sx, ⟨row1, v, by simpa using h1, h2, hv⟩, ?_⟩
        have e : r + ((sy + 1 : Nat) : Int) = r + 1 + (sy : Int) := by push_cast; ring
        rw [← e]; exact hh

theorem isColliding_iff_hits (piece : Piece) (board : Board) :
    isColliding piece board = true ↔
      ∃ (sy sx : Nat), occupied piece.tetromino.shape sy sx = true ∧
        hits board (piece.pos.y + sy) (piece.pos.x + sx) = true :=
  collidesRows_iff board piece.pos.x piece.tetromino.shape piece.pos.y

theorem isColliding_eq_false_iff (piece : Piece) (board : Board) :
    isColliding piece board = false ↔
      ∀ (sy sx : Nat), occupied piece.tetromino.shape sy sx = true →
        cellAt board (piece.pos.y + sy) (piece.pos.x + sx) = some Cell.empty := by
  rw [← Bool.not_eq_true, isColliding_iff_hits]
  simp only [not_exists, not_and, Bool.not_eq_true, hits_eq_false_iff]

theorem cellAt_eq_none_iff (board : Board) (H W : Nat) (hH : board.length = H)
    (hW : ∀ row ∈ board, row.length = W) (r c : Int) (hr : 0 ≤ r) :
    cellAt board r c = none ↔ ((H : Int) ≤ r ∨ c < 0 ∨ (W : Int) ≤ c) := by
  unfold cellAt readAt
  have hr' : ¬ r < 0 := by omega
  have hrn : (r.toNat : Int) = r := Int.toNat_of_nonneg hr
  simp only [hr', if_false]
  by_cases hlt : r.toNat < board.length
  · have hrow : board[r.toNat]? = some board[r.toNat] := List.getElem?_eq_getElem hlt
    have hlen : (board[r.toNat]).length = W := hW _ (List.getElem_mem _)
    rw [hrow]
    simp only [Option.some_bind]
    by_cases hc : c < 0
    · simp [hc]
    · have hcn : (c.toNat : Int) = c := Int.toNat_of_nonneg (by omega)
      simp only [hc, if_false, List.getElem?_eq_none_iff, hlen]
      simp only [false_or]; omega
  · have hrow : board[r.toNat]? = none := List.getElem?_eq_none (by omega)
    rw [hrow]
    simp only [Option.none_bind, true_iff]
    left; omega

/-! ## Collision: the claims -/

/-- C1: on a board of `H` rows of width `W`, for a piece with `anchor.y >= 0`, `isColliding`
returns true exactly when some occupied shape cell `(sx, sy)` lands below the board
(`anchor.y + sy >= H`), left or right of it (`anchor.x + sx < 0` or `>= W`), or on a board
cell that is not `0`; cells of the shape holding `0` play no part. -/
theorem isColliding_iff_on_board (piece : Piece) (board : Board) (H W : Nat)
    (hH : board.length = H) (hW : ∀ row ∈ board, row.length = W) (hy : 0 ≤ piece.pos.y) :
    isColliding piece board = true ↔
      ∃ (sy sx : Nat), occupied piece.tetromino.shape sy sx = true ∧
        ((H : Int) ≤ piece.pos.y + sy ∨ piece.pos.x + sx < 0 ∨ (W : Int) ≤ piece.pos.x + sx ∨
          ∃ cell, cellAt board (piece.pos.y + sy) (piece.pos.x + sx) = some cell ∧
            cell ≠ Cell.empty) := by
  rw [isColliding_iff_hits]
  have key : ∀ (sy sx : Nat),
      hits board (piece.pos.y + sy) (piece.pos.x + sx) = true ↔
        ((H : Int) ≤ piece.pos.y + sy ∨ piece.pos.x + sx < 0 ∨ (W : Int) ≤ piece.pos.x + sx ∨
          ∃ cell, cellAt board (piece.pos.y + sy) (piece.pos.x + sx) = some cell ∧
            cell ≠ Cell.empty) := by
    intro sy sx
    have hn := cellAt_eq_none_iff board H W hH hW (piece.pos.y + sy) (piece.pos.x + sx)
      (by omega)
    have hf := hits_eq_false_iff board (piece.pos.y + sy) (piece.pos.x + sx)
    cases hc : cellAt board (piece.pos.y + sy) (piece.pos.x + sx) with
    | none =>
      rw [hc] at hn hf
      have h1 : hits board (piece.pos.y + sy) (piece.pos.x + sx) = true := by
        cases hh : hits board (piece.pos.y + sy) (piece.pos.x + sx) with
        | true => rfl
        | false => exact absurd (hf.mp hh) (by simp)
      have h2 := hn.mp rfl
      constructor
      · intro _
        rcases h2 with h | h | h
        · exact Or.inl h
        · exact Or.inr (Or.inl h)
        · exact Or.inr (Or.inr (Or.inl h))
      · intro _; exact h1
    | some cell =>
      rw [hc] at hn hf
      have h2 : ¬ ((H : Int) ≤ piece.pos.y + sy ∨ piece.pos.x + sx < 0 ∨
          (W : Int) ≤ piece.pos.x + sx) := fun h => by simpa using hn.mpr h
      constructor
      · intro h
        refine Or.inr (Or.inr (Or.inr ⟨cell, rfl, ?_⟩))
        intro hce
        subst hce
        rw [hf.mpr rfl] at h
        exact Bool.noConfusion h
      · rintro (h | h | h | ⟨cell1, h1, h3⟩)
        · exact absurd (Or.inl h) h2
        · exact absurd (Or.inr (Or.inl h)) h2
        · exact absurd (Or.inr (Or.inr h)) h2
        · cases hh : hits board (piece.pos.y + sy) (piece.pos.x + sx) with
          | true => rfl
          | false =>
            have := hf.mp hh
            rw [Option.some.injEq] at this h1
            exact absurd (h1 ▸ this) h3
  constructor
  · rintro ⟨sy, sx, ho, hh⟩
    exact ⟨sy, sx, ho, (key sy sx).mp hh⟩
  · rintro ⟨sy, sx, ho, hh⟩
    exact ⟨sy, sx, ho, (key sy sx).mpr hh⟩

/-- C1 at the O piece anchored at `(9, 0)` on the empty 20-by-10 board. -/
theorem isColliding_iff_on_board_witness :
    createEmptyBoard.length = 20 ∧ (∀ row ∈ createEmptyBoard, row.length = 10) ∧
      0 ≤ (pieceAt 3 9 0).pos.y ∧
      (isColliding (pieceAt 3 9 0) createEmptyBoard = true ↔
        ∃ (sy sx : Nat), occupied (pieceAt 3 9 0).tetromino.shape sy sx = true ∧
          (((20 : Nat) : Int) ≤ (pieceAt 3 9 0).pos.y + sy ∨ (pieceAt 3 9 0).pos.x + sx < 0 ∨
            ((10 : Nat) : Int) ≤ (pieceAt 3 9 0).pos.x + sx ∨
            ∃ cell, cellAt createEmptyBoard ((pieceAt 3 9 0).pos.y + sy)
              ((pieceAt 3 9 0).pos.x + sx) = some cell ∧ cell ≠ Cell.empty)) :=
  ⟨by decide, by decide, by decide,
    isColliding_iff_on_board (pieceAt 3 9 0) createEmptyBoard 20 10 (by decide) (by decide)
      (by decide)⟩

/-- C2 as stated fails: the O piece anchored at `(4, -1)` on the empty board has every
occupied cell either at a negative row with a column inside `0..9` or on an empty board
cell, and `isColliding` returns true. -/
theorem isColliding_negative_row_counterexample :
    (∀ (sy sx : Nat), occupied (pieceAt 3 4 (-1)).tetromino.shape sy sx = true →
        (((pieceAt 3 4 (-1)).pos.y + sy < 0 ∧ 0 ≤ (pieceAt 3 4 (-1)).pos.x + sx ∧
            (pieceAt 3 4 (-1)).pos.x + sx < 10) ∨
          cellAt createEmptyBoard ((pieceAt 3 4 (-1)).pos.y + sy)
            ((pieceAt 3 4 (-1)).pos.x + sx) = some Cell.empty)) ∧
      isColliding (pieceAt 3 4 (-1)) createEmptyBoard = true := by
  refine ⟨?_, by decide⟩
  intro sy sx h
  have hs : (pieceAt 3 4 (-1)).tetromino.shape = [[1, 1], [1, 1]] := by decide
  rw [hs] at h
  rcases sy with _ | _ | sy <;> rcases sx with _ | _ | sx <;>
    first
      | (left; decide)
      | (right; decide)
      | (simp [occupied, shapeAt] at h)

/-- C2, amended: `isColliding` returns false exactly when every occupied cell of the piece
lies on a board cell holding `0`; an occupied cell at a negative board row makes it return
true, like a row below the board. -/
theorem isColliding_false_iff_all_empty (piece : Piece) (board : Board) :
    (isColliding piece board = false ↔
      ∀ (sy sx : Nat), occupied piece.tetromino.shape sy sx = true →
        cellAt board (piece.pos.y + sy) (piece.pos.x + sx) = some Cell.empty) ∧
    (∀ (sy sx : Nat), occupied piece.tetromino.shape sy sx = true →
        piece.pos.y + sy < 0 → isColliding piece board = true) := by
  refine ⟨isColliding_eq_false_iff piece board, ?_⟩
  intro sy sx ho hneg
  rw [isColliding_iff_hits]
  refine ⟨sy, sx, ho, ?_⟩
  simp [hits, readAt, hneg]

/-- C2, amended, at the O piece anchored at `(4, -1)`: its cell `(0, 0)` is at row `-1`. -/
theorem isColliding_false_iff_all_empty_witness :
    occupied (pieceAt 3 4 (-1)).tetromino.shape 0 0 = true ∧
      (pieceAt 3 4 (-1)).pos.y + ((0 : Nat) : Int) < 0 ∧
      isColliding (pieceAt 3 4 (-1)) createEmptyBoard = true :=
  ⟨by decide, by decide,
    (isColliding_false_iff_all_empty (pieceAt 3 4 (-1)) createEmptyBoard).2 0 0 (by decide)
      (by decide)⟩

/-! ## Row clearing -/

theorem clearStep_foldl (w : Nat) (rows : Board) :
    ∀ (acc : Board) (n : Nat),
      rows.foldl (clearStep w) (acc, n) =
        (List.replicate (rows.countP isFull) (List.replicate w Cell.empty) ++ acc ++
            rows.filter (fun row => !isFull row),
          n + rows.countP isFull) := by
  induction rows with
  | nil => intro acc n; simp
  | cons row rows ih =>
    intro acc n
    rw [List.foldl_cons]
    by_cases hf : isFull row = true
    · have hstep : clearStep w (acc, n) row = (List.replicate w Cell.empty :: acc, n + 1) := by
        simp [clearStep, hf]
      rw [hstep, ih, List.countP_cons_of_pos _ _ hf, List.filter_cons_of_neg (by simp [hf])]
      refine Prod.ext ?_ ?_
      · simp only [List.replicate_succ', List.append_assoc, List.singleton_append]
      · simp only; omega
    · have hstep : clearStep w (acc, n) row = (acc ++ [row], n) := by
        simp [clearStep, hf]
      rw [hstep, ih, List.countP_cons_of_neg _ _ hf, List.filter_cons_of_pos (by simp [hf])]
      simp

theorem headD_length_of_forall (board : Board) (W : Nat)
    (hW : ∀ row ∈ board, row.length = W) (hne : board ≠ []) :
    (board.headD []).length = W := by
  cases board with
  | nil => exact absurd rfl hne
  | cons row rows => exact hW row (by simp)

/-- C3: on a board whose rows all have width `W > 0`, the row-clearing pass returns `k`
all-empty rows of width `W` followed by the rows that are not full, in their order, and
issues `k` score increments, where `k` counts the full rows; a row is full exactly when none
of its cells is `0`. -/
theorem clearRows_eq (board : Board) (W : Nat) (hWpos : 0 < W)
    (hW : ∀ row ∈ board, row.length = W) :
    clearRows board =
        (List.replicate (board.countP isFull) (List.replicate W Cell.empty) ++
            board.filter (fun row => !isFull row),
          board.countP isFull) ∧
      (∀ row : List Cell, isFull row = true ↔ ∀ cell ∈ row, cell ≠ Cell.empty) := by
  constructor
  · unfold clearRows
    rw [clearStep_foldl]
    cases board with
    | nil => simp
    | cons row rows =>
      have hl : ((row :: rows).headD []).length = W :=
        headD_length_of_forall (row :: rows) W hW (by simp)
      rw [hl]
      simp
  · intro row
    simp [isFull]

/-- C3 on a board with four full rows: all four go in the one pass. -/
theorem clearRows_eq_witness :
    0 < 2 ∧ (∀ row ∈ fourFullBoard, row.length = 2) ∧
      clearRows fourFullBoard =
        ([ [Cell.empty, Cell.empty], [Cell.empty, Cell.empty], [Cell.empty, Cell.empty],
           [Cell.empty, Cell.empty], [Cell.empty, Cell.empty],
           [Cell.filled "e", Cell.empty] ], 4) :=
  ⟨by decide, by decide, (clearRows_eq fourFullBoard 2 (by decide) (by decide)).1.trans
    (by decide)⟩

/-! ## Placement -/

theorem readAt_eq_some_iff {α : Type} (xs : List α) (i : Int) (a : α) :
    readAt xs i = some a ↔ 0 ≤ i ∧ xs[i.toNat]? = some a := by
  unfold readAt
  by_cases h : i < 0
  · simp [h]
  · simp [h]; intro _; omega

theorem readAt_natCast {α : Type} (xs : List α) (n : Nat) :
    readAt xs (n : Int) = xs[n]? := by
  unfold readAt
  have h : ¬ ((n : Int) < 0) := by omega
  simp [h]

theorem readAt_set {α : Type} (xs : List α) (n : Nat) (a : α) (i : Int) :
    readAt (xs.set n a) i =
      if i = (n : Int) ∧ n < xs.length then some a else readAt xs i := by
  unfold readAt
  by_cases h : i < 0
  · have h2 : ¬ (i = (n : Int)) := by omega
    simp [h, h2]
  · have hi : (i.toNat : Int) = i := Int.toNat_of_nonneg (by omega)
    simp only [h, if_false]
    rw [List.getElem?_set]
    by_cases he : n = i.toNat
    · have h2 : i = (n : Int) := by omega
      by_cases hl : n < xs.length
      · rw [if_pos he, if_pos hl, if_pos ⟨h2, hl⟩]
      · rw [if_pos he, if_neg hl, if_neg (fun hh => hl hh.2), ← he]
        exact (List.getElem?_eq_none (by omega)).symm
    · have h2 : ¬ (i = (n : Int) ∧ n < xs.length) := fun hh => he (by omega)
      rw [if_neg he, if_neg h2]

theorem cellAt_setCell (b b1 : Board) (r c : Int) (v : Cell)
    (h : setCell b r c v = some b1) (r1 c1 : Int) :
    cellAt b1 r1 c1 = if r1 = r ∧ c1 = c then some v else cellAt b r1 c1 := by
  unfold setCell at h
  cases hrow : readAt b r with
  | none => rw [hrow] at h; exact Option.noConfusion h
  | some row =>
    rw [hrow] at h
    simp only at h
    by_cases hc : 0 ≤ c ∧ c.toNat < row.length
    · rw [if_pos hc] at h
      have hb : b1 = b.set r.toNat (row.set c.toNat v) := (Option.some.inj h).symm
      obtain ⟨hr0, hget⟩ := (readAt_eq_some_iff b r row).mp hrow
      have hrn : (r.toNat : Int) = r := Int.toNat_of_nonneg hr0
      have hcn : (c.toNat : Int) = c := Int.toNat_of_nonneg hc.1
      have hlt : r.toNat < b.length := by
        rcases Nat.lt_or_ge r.toNat b.length with h1 | h1
        · exact h1
        · rw [List.getElem?_eq_none h1] at hget; exact Option.noConfusion hget
      subst hb
      unfold cellAt
      rw [readAt_set]
      by_cases hr1 : r1 = r
      · subst hr1
        have hcond : r1 = (r1.toNat : Int) ∧ r1.toNat < b.length := ⟨hrn.symm, hlt⟩
        rw [if_pos hcond, hrow]
        simp only [Option.some_bind, true_and]
        rw [readAt_set]
        by_cases hc1 : c1 = c
        · subst hc1
          rw [if_pos ⟨hcn.symm, hc.2⟩, if_pos rfl]
        · have hne : ¬ (c1 = (c.toNat : Int) ∧ c.toNat < row.length) := by
            intro hh; exact hc1 (by omega)
          rw [if_neg hne, if_neg hc1]
      · have hne : ¬ (r1 = (r.toNat : Int) ∧ r.toNat < b.length) := by
          intro hh; exact hr1 (by omega)
        have hne2 : ¬ (r1 = r ∧ c1 = c) := fun hh => hr1 hh.1
        rw [if_neg hne, if_neg hne2]
    · rw [if_neg hc] at h
      exact Option.noConfusion h

theorem setCell_isSome (b : Board) (r c : Int) (v : Cell)
    (h : (cellAt b r c).isSome = true) : ∃ b1, setCell b r c v = some b1 := by
  unfold cellAt at h
  unfold setCell
  cases hrow : readAt b r with
  | none => rw [hrow] at h; simp at h
  | some row =>
    rw [hrow] at h
    simp only [Option.some_bind] at h
    obtain ⟨cell, hcell⟩ := Option.isSome_iff_exists.mp h
    obtain ⟨hc0, hget⟩ := (readAt_eq_some_iff row c cell).mp hcell
    have hlt : c.toNat < row.length := by
      rcases Nat.lt_or_ge c.toNat row.length with h1 | h1
      · exact h1
      · rw [List.getElem?_eq_none h1] at hget; exact Option.noConfusion hget
    exact ⟨b.set r.toNat (row.set c.toNat v), by simp [hc0, hlt]⟩

theorem readAt_neg {α : Type} (xs : List α) (i : Int) (h : i < 0) : readAt xs i = none := by
  simp [readAt, h]

theorem readAt_cons {α : Type} (a : α) (xs : List α) (i : Int) :
    readAt (a :: xs) i = if i = 0 then some a else readAt xs (i - 1) := by
  unfold readAt
  by_cases h : i < 0
  · have h1 : ¬ i = 0 := by omega
    have h2 : i - 1 < 0 := by omega
    simp [h, h1, h2]
  · by_cases h0 : i = 0
    · subst h0; simp
    · have h2 : ¬ (i - 1 < 0) := by omega
      have h3 : i.toNat = (i - 1).toNat + 1 := by omega
      simp only [h, h0, h2, if_false]
      rw [h3, List.getElem?_cons_succ]

theorem rowCovers_neg (row : List Nat) (d : Int) (h : d < 0) : rowCovers row d = false := by
  simp [rowCovers, readAt_neg row d h]

theorem rowCovers_cons (v : Nat) (vs : List Nat) (d : Int) :
    rowCovers (v :: vs) d = if d = 0 then (v != 0) else rowCovers vs (d - 1) := by
  unfold rowCovers
  rw [readAt_cons]
  by_cases h : d = 0
  · simp [h]
  · simp [h]

theorem shapeCovers_neg (shape : Shape) (dy dx : Int) (h : dy < 0) :
    shapeCovers shape dy dx = false := by
  simp [shapeCovers, readAt_neg shape dy h]

theorem shapeCovers_cons (row : List Nat) (rows : Shape) (dy dx : Int) :
    shapeCovers (row :: rows) dy dx =
      if dy = 0 then rowCovers row dx else shapeCovers rows (dy - 1) dx := by
  unfold shapeCovers
  rw [readAt_cons]
  by_cases h : dy = 0
  · simp [h]
  · simp [h]

theorem shapeCovers_iff (shape : Shape) (dy dx : Int) :
    shapeCovers shape dy dx = true ↔
      ∃ (sy sx : Nat), dy = sy ∧ dx = sx ∧ occupied shape sy sx = true := by
  constructor
  · intro h
    unfold shapeCovers at h
    cases hrow : readAt shape dy with
    | none => rw [hrow] at h; exact Bool.noConfusion h
    | some row =>
      rw [hrow] at h
      simp only [rowCovers] at h
      cases hv : readAt row dx with
      | none => rw [hv] at h; exact Bool.noConfusion h
      | some v =>
        rw [hv] at h
        obtain ⟨h1, h2⟩ := (readAt_eq_some_iff shape dy row).mp hrow
        obtain ⟨h3, h4⟩ := (readAt_eq_some_iff row dx v).mp hv
        refine ⟨dy.toNat, dx.toNat, (Int.toNat_of_nonneg h1).symm,
          (Int.toNat_of_nonneg h3).symm, ?_⟩
        simp only [occupied, shapeAt, h2, Option.some_bind, h4]
        exact h
  · rintro ⟨sy, sx, rfl, rfl, h⟩
    obtain ⟨row, v, h1, h2, hv⟩ := (occupied_iff shape sy sx).mp h
    simp [shapeCovers, rowCovers, readAt_natCast, h1, h2, hv]

theorem placeCells_spec (color : String) (r : Int) (vs : List Nat) :
    ∀ (c : Int) (b : Board),
      (∀ c1 : Int, rowCovers vs (c1 - c) = true → (cellAt b r c1).isSome = true) →
      ∃ b1, placeCells color r c vs b = some b1 ∧
        ∀ r1 c1 : Int, cellAt b1 r1 c1 =
          if r1 = r ∧ rowCovers vs (c1 - c) = true then some (Cell.filled color)
          else cellAt b r1 c1 := by
  induction vs with
  | nil =>
    intro c b _
    refine ⟨b, rfl, ?_⟩
    intro r1 c1
    simp [rowCovers, readAt]
  | cons v vs ih =>
    intro c b hb
    by_cases hv : v = 0
    · have hb2 : ∀ c1 : Int, rowCovers vs (c1 - (c + 1)) = true →
          (cellAt b r c1).isSome = true := by
        intro c1 h1
        apply hb c1
        rw [rowCovers_cons]
        by_cases h0 : c1 - c = 0
        · have hneg : c1 - (c + 1) < 0 := by omega
          rw [rowCovers_neg vs _ hneg] at h1
          exact Bool.noConfusion h1
        · rw [if_neg h0]
          have e : c1 - c - 1 = c1 - (c + 1) := by ring
          rw [e]; exact h1
      obtain ⟨b1, hb1, hcells⟩ := ih (c + 1) b hb2
      refine ⟨b1, by simp [placeCells, hv, hb1], ?_⟩
      intro r1 c1
      rw [hcells r1 c1, rowCovers_cons]
      by_cases h0 : c1 - c = 0
      · have hneg : c1 - (c + 1) < 0 := by omega
        simp [rowCovers_neg vs _ hneg, h0, hv]
      · have e : c1 - c - 1 = c1 - (c + 1) := by ring
        rw [if_neg h0, e]
    · have h0 : rowCovers (v :: vs) (c - c) = true := by
        rw [rowCovers_cons]; simp [hv]
      obtain ⟨b2, hb2⟩ := setCell_isSome b r c (Cell.filled color) (hb c h0)
      have hc2 := cellAt_setCell b b2 r c (Cell.filled color) hb2
      have hb3 : ∀ c1 : Int, rowCovers vs (c1 - (c + 1)) = true →
          (cellAt b2 r c1).isSome = true := by
        intro c1 h1
        rw [hc2 r c1]
        by_cases hc1 : c1 = c
        · simp [hc1]
        · have hne : ¬ (r = r ∧ c1 = c) := fun hh => hc1 hh.2
          rw [if_neg hne]
          apply hb c1
          rw [rowCovers_cons]
          have h0 : ¬ (c1 - c = 0) := by omega
          have e : c1 - c - 1 = c1 - (c + 1) := by ring
          rw [if_neg h0, e]; exact h1
      obtain ⟨b1, hb1, hcells⟩ := ih (c + 1) b2 hb3
      refine ⟨b1, by simp [placeCells, hv, hb2, hb1], ?_⟩
      intro r1 c1
      rw [hcells r1 c1, hc2 r1 c1, rowCovers_cons]
      by_cases h0 : c1 - c = 0
      · have hneg : c1 - (c + 1) < 0 := by omega
        have hc1 : c1 = c := by omega
        by_cases hr : r1 = r
        · simp [rowCovers_neg vs _ hneg, h0, hv, hc1, hr]
        · simp [hr]
      · have e : c1 - c - 1 = c1 - (c + 1) := by ring
        have hc1 : ¬ (c1 = c) := by omega
        have hne : ¬ (r1 = r ∧ c1 = c) := fun hh => hc1 hh.2
        rw [if_neg h0, e, if_neg hne]

theorem placeRows_spec (color : String) (px : Int) (rows : Shape) :
    ∀ (r : Int) (b : Board),
      (∀ r1 c1 : Int, shapeCovers rows (r1 - r) (c1 - px) = true →
        (cellAt b r1 c1).isSome = true) →
      ∃ b1, placeRows color px r rows b = some b1 ∧
        ∀ r1 c1 : Int, cellAt b1 r1 c1 =
          if shapeCovers rows (r1 - r) (c1 - px) = true then some (Cell.filled color)
          else cellAt b r1 c1 := by
  induction rows with
  | nil =>
    intro r b _
    refine ⟨b, rfl, ?_⟩
    intro r1 c1
    simp [shapeCovers, readAt]
  | cons row rows ih =>
    intro r b hb
    have hrow : ∀ c1 : Int, rowCovers row (c1 - px) = true →
        (cellAt b r c1).isSome = true := by
      intro c1 h1
      apply hb r c1
      rw [shapeCovers_cons]
      simp [h1]
    obtain ⟨b2, hb2, hc2⟩ := placeCells_spec color r row px b hrow
    have hb3 : ∀ r1 c1 : Int, shapeCovers rows (r1 - (r + 1)) (c1 - px) = true →
        (cellAt b2 r1 c1).isSome = true := by
      intro r1 c1 h1
      rw [hc2 r1 c1]
      by_cases hc : r1 = r ∧ rowCovers row (c1 - px) = true
      · rw [if_pos hc]; rfl
      · rw [if_neg hc]
        apply hb r1 c1
        rw [shapeCovers_cons]
        by_cases h0 : r1 - r = 0
        · have hneg : r1 - (r + 1) < 0 := by omega
          rw [shapeCovers_neg rows _ _ hneg] at h1
          exact Bool.noConfusion h1
        · have e : r1 - r - 1 = r1 - (r + 1) := by ring
          rw [if_neg h0, e]; exact h1
    obtain ⟨b1, hb1, hcells⟩ := ih (r + 1) b2 hb3
    refine ⟨b1, by simp [placeRows, hb2, hb1], ?_⟩
    intro r1 c1
    rw [hcells r1 c1, hc2 r1 c1, shapeCovers_cons]
    by_cases h0 : r1 - r = 0
    · have hneg : r1 - (r + 1) < 0 := by omega
      have hr : r1 = r := by omega
      rw [shapeCovers_neg rows _ _ hneg, if_pos h0]
      simp [hr]
    · have e : r1 - r - 1 = r1 - (r + 1) := by ring
      have hr : ¬ (r1 = r) := by omega
      have hne : ¬ (r1 = r ∧ rowCovers row (c1 - px) = true) := fun hh => hr hh.1
      rw [if_neg h0, e, if_neg hne]

theorem placePiece_spec (piece : Piece) (board : Board)
    (h : isColliding piece board = false) :
    ∃ b1, placePiece piece board = some b1 ∧
      ∀ r c : Int, cellAt b1 r c =
        if covers piece r c = true then some (Cell.filled piece.tetromino.color)
        else cellAt board r c := by
  have hall := (isColliding_eq_false_iff piece board).mp h
  apply placeRows_spec
  intro r1 c1 hcov
  obtain ⟨sy, sx, h1, h2, hocc⟩ := (shapeCovers_iff _ _ _).mp hcov
  have := hall sy sx hocc
  have e1 : piece.pos.y + sy = r1 := by omega
  have e2 : piece.pos.x + sx = c1 := by omega
  rw [e1, e2] at this
  rw [this]; rfl

/-- C4: when the piece does not collide, the placement step yields a board that holds the
piece's colour at `(anchor.y + sy, anchor.x + sx)` for every occupied shape cell `(sx, sy)`
and the old value at every other position. -/
theorem placePiece_frame (piece : Piece) (board : Board)
    (h : isColliding piece board = false) :
    ∃ newBoard, placePiece piece board = some newBoard ∧
      (∀ (sy sx : Nat), occupied piece.tetromino.shape sy sx = true →
        cellAt newBoard (piece.pos.y + sy) (piece.pos.x + sx) =
          some (Cell.filled piece.tetromino.color)) ∧
      (∀ (r c : Int),
        (¬ ∃ (sy sx : Nat), occupied piece.tetromino.shape sy sx = true ∧
            r = piece.pos.y + sy ∧ c = piece.pos.x + sx) →
        cellAt newBoard r c = cellAt board r c) := by
  obtain ⟨b1, hb1, hcells⟩ := placePiece_spec piece board h
  refine ⟨b1, hb1, ?_, ?_⟩
  · intro sy sx hocc
    rw [hcells]
    have hcov : covers piece (piece.pos.y + sy) (piece.pos.x + sx) = true := by
      unfold covers
      exact (shapeCovers_iff _ _ _).mpr ⟨sy, sx, by omega, by omega, hocc⟩
    rw [if_pos hcov]
  · intro r c hnot
    rw [hcells]
    have hcov : ¬ covers piece r c = true := by
      intro hc
      unfold covers at hc
      obtain ⟨sy, sx, h1, h2, hocc⟩ := (shapeCovers_iff _ _ _).mp hc
      exact hnot ⟨sy, sx, hocc, by omega, by omega⟩
    rw [if_neg hcov]

/-- C4 at the O piece anchored at `(8, 18)` on the empty board. -/
theorem placePiece_frame_witness :
    isColliding (pieceAt 3 8 18) createEmptyBoard = false ∧
      ∃ newBoard, placePiece (pieceAt 3 8 18) createEmptyBoard = some newBoard ∧
        (∀ (sy sx : Nat), occupied (pieceAt 3 8 18).tetromino.shape sy sx = true →
          cellAt newBoard ((pieceAt 3 8 18).pos.y + sy) ((pieceAt 3 8 18).pos.x + sx) =
            some (Cell.filled (pieceAt 3 8 18).tetromino.color)) ∧
        (∀ (r c : Int),
          (¬ ∃ (sy sx : Nat), occupied (pieceAt 3 8 18).tetromino.shape sy sx = true ∧
              r = (pieceAt 3 8 18).pos.y + sy ∧ c = (pieceAt 3 8 18).pos.x + sx) →
          cellAt newBoard r c = cellAt createEmptyBoard r c) :=
  ⟨by decide, placePiece_frame (pieceAt 3 8 18) createEmptyBoard (by decide)⟩

/-! ## The gravity tick -/

theorem clearRows_snd (newBoard : Board) : (clearRows newBoard).2 = newBoard.countP isFull := by
  unfold clearRows
  rw [clearStep_foldl]
  simp

theorem placePiece_of_inside (piece : Piece) (board : Board)
    (hin : ∀ (sy sx : Nat), occupied piece.tetromino.shape sy sx = true →
      (cellAt board (piece.pos.y + sy) (piece.pos.x + sx)).isSome = true) :
    ∃ newBoard, placePiece piece board = some newBoard := by
  have h := placeRows_spec piece.tetromino.color piece.pos.x piece.tetromino.shape
    piece.pos.y board (by
      intro r1 c1 hcov
      obtain ⟨sy, sx, h1, h2, hocc⟩ := (shapeCovers_iff _ _ _).mp hcov
      have := hin sy sx hocc
      have e1 : piece.pos.y + sy = r1 := by omega
      have e2 : piece.pos.x + sx = c1 := by omega
      rw [e1, e2] at this
      exact this)
  obtain ⟨b1, hb1, _⟩ := h
  exact ⟨b1, hb1⟩

theorem getRandomTetromino_catalog (k : Fin 7) :
    (getRandomTetromino k).pos = { x := 4, y := 0 } ∧
      ∃ entry ∈ TETROMINOS, (getRandomTetromino k).tetromino = entry.2 := by
  revert k
  decide

theorem drop_of_lock_branch (s : State) (piece : Piece) (k : Fin 7)
    (hp : s.currentPiece = some piece) (hplay : s.gameOver = false)
    (hcol : isColliding { piece with pos := { x := piece.pos.x, y := piece.pos.y + 1 } }
      s.board = true)
    (hy : 1 ≤ piece.pos.y)
    (hin : ∀ (sy sx : Nat), occupied piece.tetromino.shape sy sx = true →
      (cellAt s.board (piece.pos.y + sy) (piece.pos.x + sx)).isSome = true) :
    ∃ newBoard, placePiece piece s.board = some newBoard ∧
      drop s k = some
        { board := (clearRows newBoard).1,
          currentPiece := some (getRandomTetromino k),
          gameOver := false,
          score := s.score + 10 * newBoard.countP isFull,
          speed := s.speed } := by
  obtain ⟨newBoard, hnb⟩ := placePiece_of_inside piece s.board hin
  refine ⟨newBoard, hnb, ?_⟩
  have hy2 : ¬ piece.pos.y < 1 := by omega
  simp only [drop, hp, hcol, Bool.not_true, Bool.false_eq_true, if_false, hy2, updateBoard, hnb,
    hplay, clearRows_snd]

/-- C6: in a Playing state where the piece translated down by 1 collides and
`anchor.y < 1`, the tick sets `gameOver` and changes nothing else. -/
theorem drop_game_over (s : State) (piece : Piece) (k : Fin 7)
    (hp : s.currentPiece = some piece) (hplay : s.gameOver = false)
    (hcol : isColliding { piece with pos := { x := piece.pos.x, y := piece.pos.y + 1 } }
      s.board = true)
    (hy : piece.pos.y < 1) :
    drop s k = some
      { board := s.board, currentPiece := some piece, gameOver := true,
        score := s.score, speed := s.speed } := by
  simp only [drop, hp, hcol, Bool.not_true, Bool.false_eq_true, if_false, hy, if_true]

/-- C6 at `blockedState`: the O piece at `(4, 0)` cannot descend. -/
theorem drop_game_over_witness :
    drop blockedState 0 = some
      { board := blockedBoard, currentPiece := some (pieceAt 3 4 0), gameOver := true,
        score := 30, speed := INITIAL_SPEED } :=
  drop_game_over blockedState (pieceAt 3 4 0) 0 rfl rfl (by decide) (by decide)

/-- C7: in a Playing state where the piece translated down by 1 does not collide, the tick
adds 1 to `anchor.y` and changes nothing else. -/
theorem drop_falls (s : State) (piece : Piece) (k : Fin 7)
    (hp : s.currentPiece = some piece) (hplay : s.gameOver = false)
    (hfree : isColliding { piece with pos := { x := piece.pos.x, y := piece.pos.y + 1 } }
      s.board = false) :
    drop s k = some
      { board := s.board,
        currentPiece := some { pos := { x := piece.pos.x, y := piece.pos.y + 1 },
                               tetromino := piece.tetromino },
        gameOver := false, score := s.score, speed := s.speed } := by
  simp only [drop, hp, hfree, Bool.not_false, if_true, hplay]

/-- C7 at `freshState`: the O piece moves from `(4, 0)` to `(4, 1)`. -/
theorem drop_falls_witness :
    drop freshState 0 = some
      { board := createEmptyBoard, currentPiece := some (pieceAt 3 4 1), gameOver := false,
        score := 0, speed := INITIAL_SPEED } :=
  drop_falls freshState (pieceAt 3 4 0) 0 rfl rfl (by decide)

/-! ## Rotation -/

theorem rotate_of_rect (piece : Piece) (R C : Nat)
    (hR : piece.tetromino.shape.length = R) (hC : ∀ row ∈ piece.tetromino.shape, row.length = C)
    (hRpos : 0 < R) :
    rotate piece = some
      { pos := piece.pos,
        tetromino :=
          { shape := transposeReversed piece.tetromino.shape C,
            color := piece.tetromino.color } } := by
  unfold rotate
  cases hs : piece.tetromino.shape with
  | nil => rw [hs] at hR; simp at hR; omega
  | cons row0 rest =>
    rw [hs] at hC
    have h0 : row0.length = C := hC row0 (by simp)
    have hall : (row0 :: rest).all (fun row => decide (row0.length ≤ row.length)) = true := by
      rw [List.all_eq_true]
      intro row hrow
      have := hC row hrow
      simp [h0, this]
    simp only [h0] at hall ⊢
    rw [if_pos hall]

theorem transposeReversed_length (shape : Shape) (C : Nat) :
    (transposeReversed shape C).length = C := by
  simp [transposeReversed]

theorem transposeReversed_row_length (shape : Shape) (C : Nat) :
    ∀ row ∈ transposeReversed shape C, row.length = shape.length := by
  intro row hrow
  simp only [transposeReversed, List.mem_reverse, List.mem_map, List.mem_range] at hrow
  obtain ⟨index, _, rfl⟩ := hrow
  simp

theorem shapeAt_transposeReversed (shape : Shape) (R C : Nat)
    (hR : shape.length = R) (hC : ∀ row ∈ shape, row.length = C)
    (i j : Nat) (hi : i < C) (hj : j < R) :
    shapeAt (transposeReversed shape C) i j = shapeAt shape j (C - 1 - i) := by
  unfold shapeAt transposeReversed
  have hlen : ((List.range C).map
      (fun index => shape.map (fun row => row.getD index 0))).length = C := by simp
  rw [List.getElem?_reverse (by rw [hlen]; exact hi), hlen]
  have hk : C - 1 - i < C := by omega
  rw [List.getElem?_map, List.getElem?_range hk]
  simp only [Option.map_some', Option.some_bind]
  rw [List.getElem?_map]
  have hjl : j < shape.length := by omega
  rw [List.getElem?_eq_getElem hjl]
  simp only [Option.map_some', Option.some_bind]
  have hrow : (shape[j]).length = C := hC _ (List.getElem_mem _)
  rw [List.getD_eq_getElem?_getD, List.getElem?_eq_getElem (by omega)]
  rfl

theorem shape_ext (s t : Shape) (R C : Nat)
    (hsR : s.length = R) (hsC : ∀ row ∈ s, row.length = C)
    (htR : t.length = R) (htC : ∀ row ∈ t, row.length = C)
    (h : ∀ (i j : Nat), i < R → j < C → shapeAt s i j = shapeAt t i j) : s = t := by
  apply List.ext_getElem (by omega)
  intro i h1 h2
  have hs1 : (s[i]).length = C := hsC _ (List.getElem_mem _)
  have ht1 : (t[i]).length = C := htC _ (List.getElem_mem _)
  apply List.ext_getElem (by omega)
  intro j h3 h4
  have := h i j (by omega) (by omega)
  simp only [shapeAt, List.getElem?_eq_getElem h1, List.getElem?_eq_getElem h2,
    Option.some_bind, List.getElem?_eq_getElem h3, List.getElem?_eq_getElem h4] at this
  exact Option.some.inj this

theorem transposeReversed_four (shape : Shape) (R C : Nat)
    (hR : shape.length = R) (hC : ∀ row ∈ shape, row.length = C) :
    transposeReversed (transposeReversed (transposeReversed (transposeReversed shape C) R) C) R
      = shape := by
  have l1 := transposeReversed_length shape C
  have r1 : ∀ row ∈ transposeReversed shape C, row.length = R := by
    intro row h; rw [transposeReversed_row_length shape C row h, hR]
  have l2 := transposeReversed_length (transposeReversed shape C) R
  have r2 : ∀ row ∈ transposeReversed (transposeReversed shape C) R, row.length = C := by
    intro row h; rw [transposeReversed_row_length _ R row h, l1]
  have l3 := transposeReversed_length (transposeReversed (transposeReversed shape C) R) C
  have r3 : ∀ row ∈ transposeReversed (transposeReversed (transposeReversed shape C) R) C,
      row.length = R := by
    intro row h; rw [transposeReversed_row_length _ C row h, l2]
  have l4 := transposeReversed_length
    (transposeReversed (transposeReversed (transposeReversed shape C) R) C) R
  have r4 : ∀ row ∈ transposeReversed
      (transposeReversed (transposeReversed (transposeReversed shape C) R) C) R,
      row.length = C := by
    intro row h; rw [transposeReversed_row_length _ R row h, l3]
  apply shape_ext _ _ R C l4 r4 hR hC
  intro i j hi hj
  rw [shapeAt_transposeReversed _ C R l3 r3 i j hi hj,
    shapeAt_transposeReversed _ R C l2 r2 j (R - 1 - i) hj (by omega),
    shapeAt_transposeReversed _ C R l1 r1 (R - 1 - i) (C - 1 - j) (by omega) (by omega),
    shapeAt_transposeReversed shape R C hR hC (C - 1 - j) (R - 1 - (R - 1 - i)) (by omega)
      (by omega)]
  have e1 : R - 1 - (R - 1 - i) = i := by omega
  have e2 : C - 1 - (C - 1 - j) = j := by omega
  rw [e1, e2]

theorem rotate_rect_step (piece : Piece) (R C : Nat)
    (hR : piece.tetromino.shape.length = R) (hC : ∀ row ∈ piece.tetromino.shape, row.length = C)
    (hRpos : 0 < R) :
    ∃ q, rotate piece = some q ∧ q.pos = piece.pos ∧
      q.tetromino.color = piece.tetromino.color ∧
      q.tetromino.shape = transposeReversed piece.tetromino.shape C ∧
      q.tetromino.shape.length = C ∧ (∀ row ∈ q.tetromino.shape, row.length = R) := by
  refine ⟨_, rotate_of_rect piece R C hR hC hRpos, rfl, rfl, rfl,
    transposeReversed_length _ _, ?_⟩
  intro row hrow
  rw [transposeReversed_row_length _ C row hrow, hR]

/-- C9: four rotations of a piece whose shape is a non-empty rectangular matrix give back
the same shape, anchor and colour, so in particular for the seven catalogue entries; one
rotation fixes the O piece and two rotations fix the I piece. -/
theorem rotate_four_times :
    (∀ (piece : Piece) (R C : Nat), piece.tetromino.shape.length = R →
      (∀ row ∈ piece.tetromino.shape, row.length = C) → 0 < R → 0 < C →
      (((rotate piece).bind rotate).bind rotate).bind rotate = some piece) ∧
    (∀ (k : Fin 7) (x y : Int),
      (((rotate (pieceAt k x y)).bind rotate).bind rotate).bind rotate = some (pieceAt k x y)) ∧
    (∀ (x y : Int), rotate (pieceAt 3 x y) = some (pieceAt 3 x y)) ∧
    (∀ (x y : Int), (rotate (pieceAt 0 x y)).bind rotate = some (pieceAt 0 x y)) := by
  have gen : ∀ (piece : Piece) (R C : Nat), piece.tetromino.shape.length = R →
      (∀ row ∈ piece.tetromino.shape, row.length = C) → 0 < R → 0 < C →
      (((rotate piece).bind rotate).bind rotate).bind rotate = some piece := by
    intro piece R C hR hC hRpos hCpos
    obtain ⟨q1, h1, p1, c1, s1, l1, r1⟩ := rotate_rect_step piece R C hR hC hRpos
    obtain ⟨q2, h2, p2, c2, s2, l2, r2⟩ := rotate_rect_step q1 C R l1 r1 hCpos
    obtain ⟨q3, h3, p3, c3, s3, l3, r3⟩ := rotate_rect_step q2 R C l2 r2 hRpos
    obtain ⟨q4, h4, p4, c4, s4, _, _⟩ := rotate_rect_step q3 C R l3 r3 hCpos
    rw [h1, Option.some_bind, h2, Option.some_bind, h3, Option.some_bind, h4]
    have hs : q4.tetromino.shape = piece.tetromino.shape := by
      rw [s4, s3, s2, s1]
      exact transposeReversed_four piece.tetromino.shape R C hR hC
    have hp : q4.pos = piece.pos := by rw [p4, p3, p2, p1]
    have hc : q4.tetromino.color = piece.tetromino.color := by rw [c4, c3, c2, c1]
    congr 1
    cases q4 with
    | mk pos4 t4 =>
      cases t4 with
      | mk shape4 color4 =>
        cases piece with
        | mk pos0 t0 =>
          cases t0 with
          | mk shape0 color0 =>
            simp only at hs hp hc
            subst hs hp hc
            rfl
  refine ⟨gen, ?_, ?_, ?_⟩
  · intro k x y
    have hk : ∀ k : Fin 7,
        (∀ row ∈ (tetrominoAt k).shape, row.length = ((tetrominoAt k).shape.headD []).length) ∧
          0 < (tetrominoAt k).shape.length ∧ 0 < ((tetrominoAt k).shape.headD []).length := by
      decide
    obtain ⟨hC, hRpos, hCpos⟩ := hk k
    exact gen (pieceAt k x y) _ _ rfl hC hRpos hCpos
  · intro x y; rfl
  · intro x y; rfl

/-- C9 at the T piece anchored at `(4, 0)`, a 2-by-3 matrix. -/
theorem rotate_four_times_witness :
    (pieceAt 5 4 0).tetromino.shape.length = 2 ∧
      (∀ row ∈ (pieceAt 5 4 0).tetromino.shape, row.length = 3) ∧
      (((rotate (pieceAt 5 4 0)).bind rotate).bind rotate).bind rotate = some (pieceAt 5 4 0) :=
  ⟨by decide, by decide,
    rotate_four_times.1 (pieceAt 5 4 0) 2 3 (by decide) (by decide) (by decide) (by decide)⟩

/-- C10: for a piece whose shape is a non-empty `R`-by-`C` matrix, `rotate` returns a piece
with the same anchor and colour whose shape is a `C`-by-`R` matrix with
`result[i][j] = shape[j][C - 1 - i]`, the transpose with its rows in reverse order; it works
on a copy, so the result is a new value and the argument is untouched. -/
theorem rotate_spec (piece : Piece) (R C : Nat)
    (hR : piece.tetromino.shape.length = R) (hC : ∀ row ∈ piece.tetromino.shape, row.length = C)
    (hRpos : 0 < R) (hCpos : 0 < C) :
    ∃ q, rotate piece = some q ∧ q.pos = piece.pos ∧
      q.tetromino.color = piece.tetromino.color ∧
      q.tetromino.shape.length = C ∧ (∀ row ∈ q.tetromino.shape, row.length = R) ∧
      (∀ (i j : Nat), i < C → j < R →
        (shapeAt q.tetromino.shape i j).isSome = true ∧
        shapeAt q.tetromino.shape i j = shapeAt piece.tetromino.shape j (C - 1 - i)) ∧
      q.tetromino.shape =
        ((List.range C).map
          (fun i => piece.tetromino.shape.map (fun row => row.getD i 0))).reverse := by
  obtain ⟨q, h1, p1, c1, s1, l1, r1⟩ := rotate_rect_step piece R C hR hC hRpos
  refine ⟨q, h1, p1, c1, l1, r1, ?_, by rw [s1]; rfl⟩
  intro i j hi hj
  have hval : shapeAt q.tetromino.shape i j = shapeAt piece.tetromino.shape j (C - 1 - i) := by
    rw [s1]; exact shapeAt_transposeReversed _ R C hR hC i j hi hj
  refine ⟨?_, hval⟩
  rw [hval]
  have hjl : j < piece.tetromino.shape.length := by omega
  have hrow : (piece.tetromino.shape[j]).length = C := hC _ (List.getElem_mem _)
  simp only [shapeAt, List.getElem?_eq_getElem hjl, Option.some_bind]
  rw [List.getElem?_eq_getElem (by omega)]
  rfl

/-- C10 at the J piece anchored at `(4, 0)`, a 2-by-3 matrix. -/
theorem rotate_spec_witness :
    (pieceAt 1 4 0).tetromino.shape.length = 2 ∧
      (∀ row ∈ (pieceAt 1 4 0).tetromino.shape, row.length = 3) ∧
      ∃ q, rotate (pieceAt 1 4 0) = some q ∧ q.pos = (pieceAt 1 4 0).pos ∧
        q.tetromino.color = (pieceAt 1 4 0).tetromino.color ∧
        q.tetromino.shape.length = 3 ∧ (∀ row ∈ q.tetromino.shape, row.length = 2) ∧
        (∀ (i j : Nat), i < 3 → j < 2 →
          (shapeAt q.tetromino.shape i j).isSome = true ∧
          shapeAt q.tetromino.shape i j =
            shapeAt (pieceAt 1 4 0).tetromino.shape j (3 - 1 - i)) ∧
        q.tetromino.shape =
          ((List.range 3).map
            (fun i => (pieceAt 1 4 0).tetromino.shape.map (fun row => row.getD i 0))).reverse :=
  ⟨by decide, by decide,
    rotate_spec (pieceAt 1 4 0) 2 3 (by decide) (by decide) (by decide) (by decide)⟩

/-! ## Move and rotate commands -/

theorem movePlayer_eq (s : State) (piece : Piece) (dir : Int)
    (hp : s.currentPiece = some piece) :
    movePlayer s dir = some
      { board := s.board,
        currentPiece := some
          (if isColliding { piece with pos := { x := piece.pos.x + dir, y := piece.pos.y } }
              s.board = true
            then piece
            else { piece with pos := { x := piece.pos.x + dir, y := piece.pos.y } }),
        gameOver := s.gameOver, score := s.score, speed := s.speed } := by
  cases s with
  | mk board cp go score speed =>
    simp only at hp
    subst hp
    simp only [movePlayer]
    cases hcol : isColliding { piece with pos := { x := piece.pos.x + dir, y := piece.pos.y } }
        board with
    | true => simp
    | false => simp

/-- C8: in a Playing state the left and right arrow keys replace the active piece by the
piece with `anchor.x - 1`, respectively `anchor.x + 1`, exactly when that piece does not
collide, and the up arrow key replaces it by `rotate(activePiece)` exactly when the rotated
piece does not collide, no other position being tried; otherwise the piece stays, and board,
score and `gameOver` are the same in every case.  `rotate` returns on every shape that is a
rectangular matrix with at least one row. -/
theorem handleKeyPress_move_rotate (s : State) (piece : Piece) (k : Fin 7)
    (hp : s.currentPiece = some piece) (hplay : s.gameOver = false) :
    (∀ (keyCode : Nat) (dir : Int), (keyCode = 37 ∧ dir = -1) ∨ (keyCode = 39 ∧ dir = 1) →
      handleKeyPress s keyCode k = some
        { board := s.board,
          currentPiece := some
            (if isColliding { piece with pos := { x := piece.pos.x + dir, y := piece.pos.y } }
                s.board = true
              then piece
              else { piece with pos := { x := piece.pos.x + dir, y := piece.pos.y } }),
          gameOver := false, score := s.score, speed := s.speed }) ∧
    handleKeyPress s 38 k = (rotate piece).map (fun rotatedPiece =>
        { board := s.board,
          currentPiece := some
            (if isColliding rotatedPiece s.board = true then piece else rotatedPiece),
          gameOver := false, score := s.score, speed := s.speed }) ∧
    (∀ (R C : Nat), piece.tetromino.shape.length = R →
      (∀ row ∈ piece.tetromino.shape, row.length = C) → 0 < R →
      ∃ rotatedPiece, rotate piece = some rotatedPiece) := by
  refine ⟨?_, ?_, ?_⟩
  · rintro keyCode dir (⟨rfl, rfl⟩ | ⟨rfl, rfl⟩)
    · simp only [handleKeyPress, hplay, Bool.false_eq_true, if_false, if_true]
      rw [movePlayer_eq s piece (-1) hp, hplay]
    · have h37 : ¬ (39 = 37) := by decide
      simp only [handleKeyPress, hplay, Bool.false_eq_true, if_false, h37, if_true]
      rw [movePlayer_eq s piece 1 hp, hplay]
  · have h1 : ¬ (38 = 37) := by decide
    have h2 : ¬ (38 = 39) := by decide
    have h3 : ¬ (38 = 40) := by decide
    simp only [handleKeyPress, hplay, Bool.false_eq_true, if_false, h1, h2, h3, if_true,
      rotatePlayer, hp]
    cases hq : rotate piece with
    | none => rfl
    | some q =>
      cases s with
      | mk board cp go score speed =>
        simp only at hp hplay
        subst hp hplay
        cases hcol : isColliding q board with
        | true => simp [hcol]
        | false => simp [hcol]
  · intro R C hR hC hRpos
    obtain ⟨q, hq, _⟩ := rotate_rect_step piece R C hR hC hRpos
    exact ⟨q, hq⟩

/-- C8 at `wallState`, the T piece against the left wall: the move to the left is rejected
and the rotation is accepted. -/
theorem handleKeyPress_move_rotate_witness :
    handleKeyPress wallState 37 0 = some wallState ∧
      handleKeyPress wallState 38 0 = some
        { wallState with
          currentPiece := some
            { pos := { x := 0, y := 5 },
              tetromino := { shape := [[0, 1], [1, 1], [0, 1]], color := "bg-purple-500" } } } ∧
      ∃ rotatedPiece, rotate (pieceAt 5 0 5) = some rotatedPiece :=
  ⟨((handleKeyPress_move_rotate wallState (pieceAt 5 0 5) 0 rfl rfl).1 37 (-1)
      (Or.inl ⟨rfl, rfl⟩)).trans (by decide),
    ((handleKeyPress_move_rotate wallState (pieceAt 5 0 5) 0 rfl rfl).2.1).trans (by decide),
    (handleKeyPress_move_rotate wallState (pieceAt 5 0 5) 0 rfl rfl).2.2 2 3 (by decide)
      (by decide) (by decide)⟩

/-! ## Reset and spawn -/

/-- C11: from every state, Reset gives the all-empty board of 20 rows of 10 cells, score 0,
tick interval 1000, `gameOver` false, and a piece that is one of the seven catalogue entries
at the anchor `(4, 0)`. -/
theorem reset_eq :
    ∀ (s : State) (k : Fin 7),
      reset s k =
          { board := List.replicate 20 (List.replicate 10 Cell.empty),
            currentPiece := some (getRandomTetromino k),
            gameOver := false, score := 0, speed := 1000 } ∧
        (getRandomTetromino k).pos = { x := 4, y := 0 } ∧
        (∃ entry ∈ TETROMINOS, (getRandomTetromino k).tetromino = entry.2) ∧
        TETROMINOS.length = 7 := by
  intro s k
  exact ⟨rfl, (getRandomTetromino_catalog k).1, (getRandomTetromino_catalog k).2, rfl⟩

/-- C14: for each of the seven keys I, J, L, O, S, T, Z, the piece `getRandomTetromino`
makes has anchor `(floor(10 / 2) - 1, 0) = (4, 0)` and the matrix and colour the catalogue
holds under that key, and it does not collide with the empty board of 20 rows of 10
cells. -/
theorem getRandomTetromino_spawn :
    TETROMINOS.map Prod.fst = ["I", "J", "L", "O", "S", "T", "Z"] ∧
      ∀ k : Fin 7,
        (getRandomTetromino k).pos = { x := ((10 : Nat) : Int) / 2 - 1, y := 0 } ∧
        (getRandomTetromino k).pos = { x := 4, y := 0 } ∧
        TETROMINOS[k.val]?.map Prod.snd = some (getRandomTetromino k).tetromino ∧
        isColliding (getRandomTetromino k)
          (List.replicate 20 (List.replicate 10 Cell.empty)) = false := by
  decide

/-! ## Board dimensions -/

theorem clearRows_fst (board : Board) (W : Nat) (hW : ∀ row ∈ board, row.length = W) :
    (clearRows board).1 =
      List.replicate (board.countP isFull) (List.replicate W Cell.empty) ++
        board.filter (fun row => !isFull row) := by
  unfold clearRows
  rw [clearStep_foldl]
  cases board with
  | nil => simp
  | cons row rows =>
    have hl : ((row :: rows).headD []).length = W :=
      headD_length_of_forall (row :: rows) W hW (by simp)
    rw [hl]
    simp

theorem clearRows_dims (board : Board) (W : Nat) (hW : ∀ row ∈ board, row.length = W) :
    (clearRows board).1.length = board.length ∧
      ∀ row ∈ (clearRows board).1, row.length = W := by
  rw [clearRows_fst board W hW]
  constructor
  · rw [List.length_append, List.length_replicate]
    have h := List.length_eq_countP_add_countP isFull board
    have h2 : List.countP (fun a => decide ¬isFull a = true) board =
        (board.filter (fun row => !isFull row)).length := by
      rw [List.countP_eq_length_filter]
      congr 1
      apply List.filter_congr
      intro row _
      cases isFull row <;> simp
    omega
  · intro row hrow
    rcases List.mem_append.mp hrow with h | h
    · rw [(List.mem_replicate.mp h).2, List.length_replicate]
    · exact hW row (List.mem_filter.mp h).1

/-- C13: on a board with at least one row whose rows all have width `W`, the row-clearing
pass returns a board with as many rows, each of width `W`: as many empty rows come in at
the top as full rows go out. -/
theorem clearRows_keeps_dimensions (board : Board) (W : Nat) (hne : 0 < board.length)
    (hW : ∀ row ∈ board, row.length = W) :
    (clearRows board).1.length = board.length ∧
      (∀ row ∈ (clearRows board).1, row.length = W) ∧
      (clearRows board).1.length =
        (clearRows board).2 + (board.filter (fun row => !isFull row)).length := by
  refine ⟨(clearRows_dims board W hW).1, (clearRows_dims board W hW).2, ?_⟩
  rw [clearRows_fst board W hW, clearRows_snd, List.length_append, List.length_replicate]

/-- C13 on the board with four full rows out of six. -/
theorem clearRows_keeps_dimensions_witness :
    0 < fourFullBoard.length ∧ (∀ row ∈ fourFullBoard, row.length = 2) ∧
      (clearRows fourFullBoard).1.length = 6 ∧
      (∀ row ∈ (clearRows fourFullBoard).1, row.length = 2) :=
  ⟨by decide, by decide,
    (clearRows_keeps_dimensions fourFullBoard 2 (by decide) (by decide)).1,
    (clearRows_keeps_dimensions fourFullBoard 2 (by decide) (by decide)).2.1⟩

/-! ## Moves at the board edge -/

theorem hits_of_column_outside (board : Board) (W : Nat)
    (hW : ∀ row ∈ board, row.length = W) (r c : Int) (hc : c < 0 ∨ (W : Int) ≤ c) :
    hits board r c = true := by
  unfold hits
  cases hrow : readAt board r with
  | none => rfl
  | some row =>
    have hmem : row ∈ board := by
      obtain ⟨_, hget⟩ := (readAt_eq_some_iff board r row).mp hrow
      exact List.getElem?_mem hget
    have hlen := hW row hmem
    have hnone : readAt row c = none := by
      unfold readAt
      rcases hc with h | h
      · simp [h]
      · have h0 : ¬ c < 0 := by omega
        simp only [h0, if_false]
        apply List.getElem?_eq_none
        omega
    simp [hnone]

theorem movePlayer_of_collides (s : State) (piece : Piece) (dir : Int)
    (hp : s.currentPiece = some piece)
    (hcol : isColliding { piece with pos := { x := piece.pos.x + dir, y := piece.pos.y } }
      s.board = true) :
    movePlayer s dir = some s := by
  simp [movePlayer, hp, hcol]

/-- C15: in a Playing state on a board whose rows are 10 wide, the left arrow key leaves the
whole state as it is when some occupied cell of the active piece is in board column 0, and
the right arrow key does when some occupied cell is in board column 9. -/
theorem move_rejected_at_edge (s : State) (piece : Piece) (k : Fin 7)
    (hp : s.currentPiece = some piece) (hplay : s.gameOver = false)
    (hW : ∀ row ∈ s.board, row.length = 10) :
    ((∃ (sy sx : Nat), occupied piece.tetromino.shape sy sx = true ∧ piece.pos.x + sx = 0) →
        handleKeyPress s 37 k = some s) ∧
      ((∃ (sy sx : Nat), occupied piece.tetromino.shape sy sx = true ∧ piece.pos.x + sx = 9) →
        handleKeyPress s 39 k = some s) := by
  constructor
  · rintro ⟨sy, sx, hocc, hx⟩
    have hcol : isColliding { piece with pos := { x := piece.pos.x + (-1), y := piece.pos.y } }
        s.board = true := by
      rw [isColliding_iff_hits]
      refine ⟨sy, sx, hocc, ?_⟩
      exact hits_of_column_outside s.board 10 hW _ _ (Or.inl (by simp only; omega))
    simp only [handleKeyPress, hplay, Bool.false_eq_true, if_false, if_true]
    exact movePlayer_of_collides s piece (-1) hp hcol
  · rintro ⟨sy, sx, hocc, hx⟩
    have hcol : isColliding { piece with pos := { x := piece.pos.x + 1, y := piece.pos.y } }
        s.board = true := by
      rw [isColliding_iff_hits]
      refine ⟨sy, sx, hocc, ?_⟩
      exact hits_of_column_outside s.board 10 hW _ _ (Or.inr (by simp only; omega))
    have h37 : ¬ (39 = 37) := by decide
    simp only [handleKeyPress, hplay, Bool.false_eq_true, if_false, h37, if_true]
    exact movePlayer_of_collides s piece 1 hp hcol

/-- C15 at `wallState`: the T piece at `(0, 5)` has its cell `(0, 1)` in board column 0. -/
theorem move_rejected_at_edge_witness :
    (∀ row ∈ wallState.board, row.length = 10) ∧
      occupied (pieceAt 5 0 5).tetromino.shape 1 0 = true ∧
      handleKeyPress wallState 37 0 = some wallState :=
  ⟨by decide, by decide,
    (move_rejected_at_edge wallState (pieceAt 5 0 5) 0 rfl rfl (by decide)).1
      ⟨1, 0, by decide, by decide⟩⟩

/-! ## Game over -/

theorem drop_gameOver_mono (s s1 : State) (k : Fin 7) (h : drop s k = some s1)
    (hover : s.gameOver = true) : s1.gameOver = true := by
  unfold drop at h
  cases hp : s.currentPiece with
  | none => rw [hp] at h; exact Option.noConfusion h
  | some piece =>
    rw [hp] at h
    simp only at h
    split at h
    · cases h; exact hover
    · split at h
      · cases h; rfl
      · unfold updateBoard at h
        rw [hp] at h
        simp only at h
        cases hb : placePiece piece s.board with
        | none => rw [hb] at h; exact Option.noConfusion h
        | some newBoard =>
          rw [hb] at h
          cases h
          exact hover

theorem handleKeyPress_of_gameOver (s : State) (keyCode : Nat) (k : Fin 7)
    (hover : s.gameOver = true) : handleKeyPress s keyCode k = some s := by
  simp [handleKeyPress, hover]

/-- C12: in a state with `gameOver` true every key press leaves the whole state as it is,
the delay handed to the timer is `null`, so the timer delivers no tick, and along every
sequence of stimuli without a click on the reset button `gameOver` stays true. -/
theorem gameOver_absorbing :
    (∀ (s : State), s.gameOver = true →
      (∀ (keyCode : Nat) (k : Fin 7), handleKeyPress s keyCode k = some s) ∧
        tickDelay s = none ∧ (∀ k : Fin 7, onTick s k = some s)) ∧
    (∀ (l : List Stimulus) (s s1 : State), (∀ st ∈ l, ∀ k : Fin 7, st ≠ Stimulus.reset k) →
      run s l = some s1 → s.gameOver = true → s1.gameOver = true) := by
  constructor
  · intro s hover
    refine ⟨fun keyCode k => handleKeyPress_of_gameOver s keyCode k hover, ?_, ?_⟩
    · simp [tickDelay, hover]
    · intro k; simp [onTick, tickDelay, hover]
  · intro l
    induction l with
    | nil =>
      intro s s1 _ hrun hover
      simp only [run] at hrun
      cases hrun
      exact hover
    | cons st rest ih =>
      intro s s1 hno hrun hover
      simp only [run] at hrun
      cases hstep : step s st with
      | none => rw [hstep] at hrun; exact Option.noConfusion hrun
      | some s2 =>
        rw [hstep, Option.some_bind] at hrun
        have hrest : ∀ st1 ∈ rest, ∀ k : Fin 7, st1 ≠ Stimulus.reset k :=
          fun st1 h1 => hno st1 (List.mem_cons_of_mem _ h1)
        apply ih s2 s1 hrest hrun
        cases st with
        | key keyCode k =>
          simp only [step] at hstep
          rw [handleKeyPress_of_gameOver s keyCode k hover] at hstep
          cases hstep
          exact hover
        | tick k =>
          simp only [step] at hstep
          exact drop_gameOver_mono s s2 k hstep hover
        | reset k => exact absurd rfl (hno (Stimulus.reset k) (List.mem_cons_self _ _) k)
        | mount k =>
          simp only [step] at hstep
          cases hstep
          exact hover

/-- C12 at `overState`: the four keys, a tick and a spawn leave `gameOver` true, and the
left arrow key leaves the state as it is. -/
theorem gameOver_absorbing_witness :
    overState.gameOver = true ∧
      handleKeyPress overState 37 0 = some overState ∧
      tickDelay overState = none ∧
      ∀ s1, run overState [Stimulus.key 37 0, Stimulus.key 39 0, Stimulus.key 40 0,
          Stimulus.key 38 0, Stimulus.tick 0, Stimulus.mount 2] = some s1 →
        s1.gameOver = true :=
  ⟨rfl, (gameOver_absorbing.1 overState rfl).1 37 0, (gameOver_absorbing.1 overState rfl).2.1,
    fun s1 h => gameOver_absorbing.2 _ overState s1 (by decide) h rfl⟩

/-! ## The end of the game -/

theorem run_overhangPlay : run (initial 0) overhangPlay = some overhangState := by
  decide

/-- C17 as stated fails: `overhangState`, which a play from the start reaches, has the S
piece freshly spawned at `(4, 0)` on the locked cell `(1, 4)`, and the next tick moves the
piece down to `(4, 1)` with `gameOver` still false. -/
theorem drop_on_colliding_spawn_counterexample :
    run (initial 0) overhangPlay = some overhangState ∧
      overhangState.gameOver = false ∧
      overhangState.currentPiece = some (getRandomTetromino 4) ∧
      (getRandomTetromino 4).pos = { x := 4, y := 0 } ∧
      isColliding (getRandomTetromino 4) overhangState.board = true ∧
      ∀ k : Fin 7, drop overhangState k = some
        { board := overhangBoard, currentPiece := some (pieceAt 4 4 1), gameOver := false,
          score := 0, speed := INITIAL_SPEED } :=
  ⟨run_overhangPlay, by decide⟩

/-- C17, amended: in a Playing state whose piece is freshly spawned at `(4, 0)` and collides
with the board, the next tick sets `gameOver`, and nothing else, when the piece translated
down by 1 collides too; when it does not, the tick moves the piece to `(4, 1)` and
`gameOver` stays false. -/
theorem drop_on_colliding_spawn (s : State) (piece : Piece) (k : Fin 7)
    (hp : s.currentPiece = some piece) (hplay : s.gameOver = false)
    (hpos : piece.pos = { x := 4, y := 0 })
    (hcol : isColliding piece s.board = true) :
    (isColliding { piece with pos := { x := 4, y := 1 } } s.board = true →
        drop s k = some
          { board := s.board, currentPiece := some piece, gameOver := true,
            score := s.score, speed := s.speed }) ∧
      (isColliding { piece with pos := { x := 4, y := 1 } } s.board = false →
        drop s k = some
          { board := s.board,
            currentPiece := some { piece with pos := { x := 4, y := 1 } },
            gameOver := false, score := s.score, speed := s.speed }) := by
  have hx : piece.pos.x = 4 := by rw [hpos]
  have hy : piece.pos.y = 0 := by rw [hpos]
  constructor
  · intro hdown
    simp only [drop, hp, hx, hy, Int.zero_add, hdown, Bool.not_true, Bool.false_eq_true,
      if_false]
    simp
  · intro hdown
    simp only [drop, hp, hx, hy, Int.zero_add, hdown, Bool.not_false, if_true, hplay]

/-- C17, amended, at `overhangState`: the S piece moves down to `(4, 1)`. -/
theorem drop_on_colliding_spawn_witness :
    overhangState.currentPiece = some (getRandomTetromino 4) ∧
      overhangState.gameOver = false ∧
      isColliding (getRandomTetromino 4) overhangState.board = true ∧
      isColliding { getRandomTetromino 4 with pos := { x := 4, y := 1 } }
        overhangState.board = false ∧
      drop overhangState 0 = some
        { board := overhangState.board,
          currentPiece := some { getRandomTetromino 4 with pos := { x := 4, y := 1 } },
          gameOver := false, score := overhangState.score, speed := overhangState.speed } :=
  ⟨rfl, rfl, by decide, by decide,
    (drop_on_colliding_spawn overhangState (getRandomTetromino 4) 0 rfl rfl rfl
      (by decide)).2 (by decide)⟩

/-! ## The direction of the rotation -/

/-- C18 as stated fails: for the J piece, a 2-by-3 matrix, the up arrow key commits the
shape `[[0, 1], [0, 1], [1, 1]]`, whose entry `[0][0]` is `0`, while the clockwise formula
`shape[R - 1 - j][i]` gives `shape[1][0] = 1` there. -/
theorem rotate_clockwise_counterexample :
    handleKeyPress (initial 1) 38 0 = some
        { initial 1 with
          currentPiece := some
            { pos := { x := 4, y := 0 },
              tetromino := { shape := [[0, 1], [0, 1], [1, 1]], color := "bg-orange-500" } } } ∧
      (getRandomTetromino 1).tetromino.shape = [[1, 0, 0], [1, 1, 1]] ∧
      shapeAt [[0, 1], [0, 1], [1, 1]] 0 0 = some 0 ∧
      shapeAt (getRandomTetromino 1).tetromino.shape (2 - 1 - 0) 0 = some 1 := by
  decide

/-- C18, amended: the rotation the up arrow key commits is the quarter turn against the
clock of the shape as displayed: for an `R`-by-`C` shape the cell at row `r`, column `c`
ends up at row `C - 1 - c`, column `r` of the rotated `C`-by-`R` shape, that is
`result[i][j] = shape[j][C - 1 - i]`. -/
theorem rotate_counterclockwise (s : State) (piece : Piece) (k : Fin 7) (R C : Nat)
    (hp : s.currentPiece = some piece) (hplay : s.gameOver = false)
    (hR : piece.tetromino.shape.length = R) (hC : ∀ row ∈ piece.tetromino.shape, row.length = C)
    (hRpos : 0 < R) :
    ∃ rotatedPiece, rotate piece = some rotatedPiece ∧
      rotatedPiece.tetromino.shape.length = C ∧
      (∀ row ∈ rotatedPiece.tetromino.shape, row.length = R) ∧
      (∀ (r c : Nat), r < R → c < C →
        shapeAt rotatedPiece.tetromino.shape (C - 1 - c) r =
          shapeAt piece.tetromino.shape r c) ∧
      (∀ (i j : Nat), i < C → j < R →
        shapeAt rotatedPiece.tetromino.shape i j =
          shapeAt piece.tetromino.shape j (C - 1 - i)) ∧
      (isColliding rotatedPiece s.board = false →
        handleKeyPress s 38 k = some { s with currentPiece := some rotatedPiece }) := by
  obtain ⟨q, hq, _, _, hs, hl, hr⟩ := rotate_rect_step piece R C hR hC hRpos
  have hentry : ∀ (i j : Nat), i < C → j < R →
      shapeAt q.tetromino.shape i j = shapeAt piece.tetromino.shape j (C - 1 - i) := by
    intro i j hi hj
    rw [hs]
    exact shapeAt_transposeReversed _ R C hR hC i j hi hj
  refine ⟨q, hq, hl, hr, ?_, hentry, ?_⟩
  · intro r c hr1 hc1
    rw [hentry (C - 1 - c) r (by omega) hr1]
    have e : C - 1 - (C - 1 - c) = c := by omega
    rw [e]
  · intro hfree
    have h1 : ¬ (38 = 37) := by decide
    have h2 : ¬ (38 = 39) := by decide
    have h3 : ¬ (38 = 40) := by decide
    simp only [handleKeyPress, hplay, Bool.false_eq_true, if_false, h1, h2, h3, if_true,
      rotatePlayer, hp, hq, hfree, Bool.not_false]

/-- C18, amended, at the J piece in the starting state. -/
theorem rotate_counterclockwise_witness :
    ∃ rotatedPiece, rotate (getRandomTetromino 1) = some rotatedPiece ∧
      rotatedPiece.tetromino.shape.length = 3 ∧
      (∀ row ∈ rotatedPiece.tetromino.shape, row.length = 2) ∧
      (∀ (r c : Nat), r < 2 → c < 3 →
        shapeAt rotatedPiece.tetromino.shape (3 - 1 - c) r =
          shapeAt (getRandomTetromino 1).tetromino.shape r c) ∧
      (∀ (i j : Nat), i < 3 → j < 2 →
        shapeAt rotatedPiece.tetromino.shape i j =
          shapeAt (getRandomTetromino 1).tetromino.shape j (3 - 1 - i)) ∧
      (isColliding rotatedPiece (initial 1).board = false →
        handleKeyPress (initial 1) 38 0 =
          some { initial 1 with currentPiece := some rotatedPiece }) :=
  rotate_counterclockwise (initial 1) (getRandomTetromino 1) 0 2 3 rfl rfl (by decide)
    (by decide) (by decide)

/-! ## What holds along every play -/

theorem setCell_dims (b b1 : Board) (r c : Int) (v : Cell) (W : Nat)
    (h : setCell b r c v = some b1) (hW : ∀ row ∈ b, row.length = W) :
    b1.length = b.length ∧ ∀ row ∈ b1, row.length = W := by
  unfold setCell at h
  cases hrow : readAt b r with
  | none => rw [hrow] at h; exact Option.noConfusion h
  | some row =>
    rw [hrow] at h
    simp only at h
    by_cases hc : 0 ≤ c ∧ c.toNat < row.length
    · rw [if_pos hc] at h
      cases h
      have hmem : row ∈ b :=
        List.getElem?_mem ((readAt_eq_some_iff b r row).mp hrow).2
      refine ⟨List.length_set _ _ _, ?_⟩
      intro row1 hrow1
      rcases List.mem_or_eq_of_mem_set hrow1 with h1 | h1
      · exact hW row1 h1
      · rw [h1, List.length_set]; exact hW row hmem
    · rw [if_neg hc] at h
      exact Option.noConfusion h

theorem placeCells_dims (color : String) (r : Int) (W : Nat) (vs : List Nat) :
    ∀ (c : Int) (b b1 : Board), placeCells color r c vs b = some b1 →
      (∀ row ∈ b, row.length = W) →
      b1.length = b.length ∧ ∀ row ∈ b1, row.length = W := by
  induction vs with
  | nil =>
    intro c b b1 h hW
    simp only [placeCells] at h
    cases h
    exact ⟨rfl, hW⟩
  | cons v vs ih =>
    intro c b b1 h hW
    simp only [placeCells] at h
    by_cases hv : v = 0
    · simp only [hv, ne_eq, not_true_eq_false, if_false] at h
      exact ih (c + 1) b b1 h hW
    · simp only [hv, ne_eq, not_false_eq_true, if_true] at h
      cases hset : setCell b r c (Cell.filled color) with
      | none => rw [hset] at h; exact Option.noConfusion h
      | some b2 =>
        rw [hset, Option.some_bind] at h
        obtain ⟨hl2, hW2⟩ := setCell_dims b b2 r c _ W hset hW
        obtain ⟨hl1, hW1⟩ := ih (c + 1) b2 b1 h hW2
        exact ⟨hl1.trans hl2, hW1⟩

theorem placeRows_dims (color : String) (px : Int) (W : Nat) (rows : Shape) :
    ∀ (r : Int) (b b1 : Board), placeRows color px r rows b = some b1 →
      (∀ row ∈ b, row.length = W) →
      b1.length = b.length ∧ ∀ row ∈ b1, row.length = W := by
  induction rows with
  | nil =>
    intro r b b1 h hW
    simp only [placeRows] at h
    cases h
    exact ⟨rfl, hW⟩
  | cons row rows ih =>
    intro r b b1 h hW
    simp only [placeRows] at h
    cases hrow : placeCells color r px row b with
    | none => rw [hrow] at h; exact Option.noConfusion h
    | some b2 =>
      rw [hrow, Option.some_bind] at h
      obtain ⟨hl2, hW2⟩ := placeCells_dims color r W row px b b2 hrow hW
      obtain ⟨hl1, hW1⟩ := ih (r + 1) b2 b1 h hW2
      exact ⟨hl1.trans hl2, hW1⟩

theorem covers_row_ge (piece : Piece) (r c : Int) (h : covers piece r c = true) :
    piece.pos.y ≤ r := by
  unfold covers at h
  obtain ⟨sy, sx, h1, _, _⟩ := (shapeCovers_iff _ _ _).mp h
  omega

theorem cellAt_zero_cons_replicate (W : Nat) (rest : Board) (c : Int) (cell : Cell)
    (h : cellAt (List.replicate W Cell.empty :: rest) 0 c = some cell) : cell = Cell.empty := by
  unfold cellAt at h
  rw [readAt_cons, if_pos rfl, Option.some_bind] at h
  obtain ⟨_, hget⟩ := (readAt_eq_some_iff _ c cell).mp h
  have hmem := List.getElem?_mem hget
  exact (List.mem_replicate.mp hmem).2

theorem clearRows_top (newBoard : Board) (W : Nat) (hW : ∀ row ∈ newBoard, row.length = W)
    (htop : ∀ (c : Int) (cell : Cell), cellAt newBoard 0 c = some cell → cell = Cell.empty) :
    ∀ (c : Int) (cell : Cell), cellAt (clearRows newBoard).1 0 c = some cell →
      cell = Cell.empty := by
  intro c cell h
  rw [clearRows_fst newBoard W hW] at h
  cases hk : newBoard.countP isFull with
  | zero =>
    rw [hk] at h
    simp only [List.replicate_zero, List.nil_append] at h
    have hall : newBoard.filter (fun row => !isFull row) = newBoard := by
      rw [List.filter_eq_self]
      intro row hrow
      have := List.countP_eq_zero.mp hk row hrow
      simpa using this
    rw [hall] at h
    exact htop c cell h
  | succ n =>
    rw [hk, List.replicate_succ, List.cons_append] at h
    exact cellAt_zero_cons_replicate W _ c cell h
theorem sound_with_piece (s : State) (q : Piece) (hs : Sound s)
    (hq : 1 ≤ q.pos.y → isColliding q s.board = false) :
    Sound { s with currentPiece := some q } :=
  { rows := hs.rows, cols := hs.cols, top := hs.top, piece := ⟨q, rfl, hq⟩ }

theorem sound_with_gameOver (s : State) (hs : Sound s) :
    Sound { s with gameOver := true } :=
  { rows := hs.rows, cols := hs.cols, top := hs.top, piece := hs.piece }

theorem sound_initial (k : Fin 7) : Sound (initial k) :=
  { rows := by show createEmptyBoard.length = BOARD_HEIGHT; decide
    cols := by show ∀ row ∈ createEmptyBoard, row.length = BOARD_WIDTH; decide
    top := by
      intro c cell h
      exact cellAt_zero_cons_replicate BOARD_WIDTH
        (List.replicate 19 (List.replicate BOARD_WIDTH Cell.empty)) c cell h
    piece := ⟨getRandomTetromino k, rfl, by
      intro h
      have : (getRandomTetromino k).pos.y = 0 := rfl
      omega⟩ }

theorem sound_updateBoard (s s1 : State) (k : Fin 7) (piece : Piece) (hs : Sound s)
    (hp : s.currentPiece = some piece) (hy : 1 ≤ piece.pos.y)
    (h : updateBoard s k = some s1) : Sound s1 := by
  obtain ⟨p1, hp1, hfree⟩ := hs.piece
  rw [hp] at hp1
  cases hp1
  obtain ⟨b1, hb1, hcells⟩ := placePiece_spec piece s.board (hfree hy)
  simp only [updateBoard, hp, hb1] at h
  cases h
  obtain ⟨hl1, hW1⟩ := placeRows_dims _ _ BOARD_WIDTH _ _ _ _ hb1 hs.cols
  obtain ⟨hl2, hW2⟩ := clearRows_dims b1 BOARD_WIDTH hW1
  have htop1 : ∀ (c : Int) (cell : Cell), cellAt b1 0 c = some cell → cell = Cell.empty := by
    intro c cell hc
    rw [hcells] at hc
    have hcov : ¬ covers piece 0 c = true := by
      intro hcv
      have := covers_row_ge piece 0 c hcv
      omega
    rw [if_neg hcov] at hc
    exact hs.top c cell hc
  exact
    { rows := by simp only; rw [hl2, hl1]; exact hs.rows
      cols := hW2
      top := clearRows_top b1 BOARD_WIDTH hW1 htop1
      piece := ⟨getRandomTetromino k, rfl, by
        intro h0
        have : (getRandomTetromino k).pos.y = 0 := rfl
        omega⟩ }

theorem sound_drop (s s1 : State) (k : Fin 7) (hs : Sound s) (h : drop s k = some s1) :
    Sound s1 := by
  unfold drop at h
  cases hp : s.currentPiece with
  | none => rw [hp] at h; exact Option.noConfusion h
  | some piece =>
    rw [hp] at h
    simp only at h
    cases hcol : isColliding { piece with pos := { x := piece.pos.x, y := piece.pos.y + 1 } }
        s.board with
    | false =>
      simp only [hcol, Bool.not_false, if_true] at h
      cases h
      exact sound_with_piece s _ hs (fun _ => hcol)
    | true =>
      simp only [hcol, Bool.not_true, Bool.false_eq_true, if_false] at h
      by_cases hy : piece.pos.y < 1
      · rw [if_pos hy] at h
        cases h
        have hg := sound_with_gameOver s hs
        rw [hp] at hg
        exact hg
      · rw [if_neg hy] at h
        exact sound_updateBoard s s1 k piece hs hp (by omega) h

theorem sound_movePlayer (s s1 : State) (dir : Int) (hs : Sound s)
    (h : movePlayer s dir = some s1) : Sound s1 := by
  unfold movePlayer at h
  cases hp : s.currentPiece with
  | none => rw [hp] at h; exact Option.noConfusion h
  | some piece =>
    rw [hp] at h
    simp only at h
    cases hcol : isColliding { piece with pos := { x := piece.pos.x + dir, y := piece.pos.y } }
        s.board with
    | false =>
      simp only [hcol, Bool.not_false, if_true] at h
      cases h
      exact sound_with_piece s _ hs (fun _ => hcol)
    | true =>
      simp only [hcol, Bool.not_true, Bool.false_eq_true, if_false] at h
      cases h
      exact hs

theorem sound_rotatePlayer (s s1 : State) (hs : Sound s)
    (h : rotatePlayer s = some s1) : Sound s1 := by
  unfold rotatePlayer at h
  cases hp : s.currentPiece with
  | none => rw [hp] at h; exact Option.noConfusion h
  | some piece =>
    rw [hp] at h
    simp only at h
    cases hq : rotate piece with
    | none => rw [hq] at h; exact Option.noConfusion h
    | some q =>
      rw [hq] at h
      simp only at h
      cases hcol : isColliding q s.board with
      | false =>
        simp only [hcol, Bool.not_false, if_true] at h
        cases h
        exact sound_with_piece s _ hs (fun _ => hcol)
      | true =>
        simp only [hcol, Bool.not_true, Bool.false_eq_true, if_false] at h
        cases h
        exact hs

theorem sound_handleKeyPress (s s1 : State) (keyCode : Nat) (k : Fin 7) (hs : Sound s)
    (h : handleKeyPress s keyCode k = some s1) : Sound s1 := by
  unfold handleKeyPress at h
  split at h
  · cases h; exact hs
  · split at h
    · exact sound_movePlayer s s1 _ hs h
    · split at h
      · exact sound_movePlayer s s1 _ hs h
      · split at h
        · exact sound_drop s s1 k hs h
        · split at h
          · exact sound_rotatePlayer s s1 hs h
          · cases h; exact hs

theorem sound_step (s s1 : State) (st : Stimulus) (hs : Sound s)
    (h : step s st = some s1) : Sound s1 := by
  cases st with
  | key keyCode k => exact sound_handleKeyPress s s1 keyCode k hs h
  | tick k => exact sound_drop s s1 k hs h
  | reset k =>
    simp only [step] at h
    cases h
    exact sound_initial k
  | mount k =>
    simp only [step] at h
    cases h
    exact sound_with_piece s _ hs (by
      intro h0
      have : (getRandomTetromino k).pos.y = 0 := rfl
      omega)

theorem sound_run (l : List Stimulus) :
    ∀ (s s1 : State), Sound s → run s l = some s1 → Sound s1 := by
  induction l with
  | nil =>
    intro s s1 hs h
    simp only [run] at h
    cases h
    exact hs
  | cons st rest ih =>
    intro s s1 hs h
    simp only [run] at h
    cases hstep : step s st with
    | none => rw [hstep] at h; exact Option.noConfusion h
    | some s2 =>
      rw [hstep, Option.some_bind] at h
      exact ih s2 s1 (sound_step s s2 st hs hstep) h

/-- C19: in every state a play from the start reaches, by key presses, ticks, resets and
spawns in any order, if the piece translated down by 1 collides and `anchor.y >= 1`, so that
a tick locks the piece, then the piece itself does not collide: each of its occupied cells
is on an empty cell of the board of 20 rows of 10 cells, the tick returns, and the board
it gives has 20 rows of 10 cells again. -/
theorem lock_precondition_holds (k0 : Fin 7) (l : List Stimulus) (s : State) (piece : Piece)
    (k : Fin 7) (hrun : run (initial k0) l = some s) (hp : s.currentPiece = some piece)
    (hcol : isColliding { piece with pos := { x := piece.pos.x, y := piece.pos.y + 1 } }
      s.board = true)
    (hy : 1 ≤ piece.pos.y) :
    isColliding piece s.board = false ∧
      (∀ (sy sx : Nat), occupied piece.tetromino.shape sy sx = true →
        cellAt s.board (piece.pos.y + sy) (piece.pos.x + sx) = some Cell.empty) ∧
      s.board.length = 20 ∧ (∀ row ∈ s.board, row.length = 10) ∧
      ∃ s1 newBoard, placePiece piece s.board = some newBoard ∧ drop s k = some s1 ∧
        s1.board = (clearRows newBoard).1 ∧
        s1.board.length = 20 ∧ (∀ row ∈ s1.board, row.length = 10) := by
  have hs : Sound s := sound_run l (initial k0) s (sound_initial k0) hrun
  obtain ⟨p1, hp1, hfree⟩ := hs.piece
  rw [hp] at hp1
  cases hp1
  have hno := hfree hy
  obtain ⟨b1, hb1, _⟩ := placePiece_spec piece s.board hno
  have hy2 : ¬ piece.pos.y < 1 := by omega
  have hdrop : drop s k = some
      { board := (clearRows b1).1, currentPiece := some (getRandomTetromino k),
        gameOver := s.gameOver, score := s.score + 10 * (clearRows b1).2,
        speed := s.speed } := by
    simp only [drop, hp, hcol, Bool.not_true, Bool.false_eq_true, if_false, hy2, updateBoard,
      hb1]
  have hs1 := sound_drop s _ k hs hdrop
  exact ⟨hno, (isColliding_eq_false_iff piece s.board).mp hno, hs.rows, hs.cols,
    _, b1, hb1, hdrop, rfl, hs1.rows, hs1.cols⟩

/-- C19 after 18 ticks from the start with the O piece, which then rests on the floor at
`(4, 18)`. -/
theorem lock_precondition_holds_witness :
    run (initial 3) (List.replicate 18 (Stimulus.tick 0)) = some (fallingState 3 18) ∧
      isColliding (pieceAt 3 4 18) (fallingState 3 18).board = false ∧
      ∃ s1 newBoard, placePiece (pieceAt 3 4 18) (fallingState 3 18).board = some newBoard ∧
        drop (fallingState 3 18) 0 = some s1 ∧
        s1.board = (clearRows newBoard).1 ∧
        s1.board.length = 20 ∧ (∀ row ∈ s1.board, row.length = 10) :=
  ⟨by decide,
    (lock_precondition_holds 3 (List.replicate 18 (Stimulus.tick 0)) (fallingState 3 18)
      (pieceAt 3 4 18) 0 (by decide) rfl (by decide) (by decide)).1,
    (lock_precondition_holds 3 (List.replicate 18 (Stimulus.tick 0)) (fallingState 3 18)
      (pieceAt 3 4 18) 0 (by decide) rfl (by decide) (by decide)).2.2.2.2⟩

/-- C20: in every state a play from the start reaches, row 0 of the board is a row of 10
empty cells; a tick changes the board only when it locks a piece, and then the piece has
`anchor.y >= 1`. -/
theorem top_row_stays_empty (k0 : Fin 7) (l : List Stimulus) (s : State)
    (hrun : run (initial k0) l = some s) :
    (∃ row, s.board[0]? = some row ∧ row.length = 10 ∧ ∀ cell ∈ row, cell = Cell.empty) ∧
      (∀ (k : Fin 7) (s1 : State) (piece : Piece), s.currentPiece = some piece →
        drop s k = some s1 → s1.board ≠ s.board → 1 ≤ piece.pos.y) := by
  have hs : Sound s := sound_run l (initial k0) s (sound_initial k0) hrun
  constructor
  · have hlen : 0 < s.board.length := by rw [hs.rows]; decide
    refine ⟨s.board[0], List.getElem?_eq_getElem hlen, hs.cols _ (List.getElem_mem _), ?_⟩
    intro cell hcell
    obtain ⟨i, hi, hget⟩ := List.getElem_of_mem hcell
    apply hs.top (i : Int) cell
    unfold cellAt
    rw [show readAt s.board 0 = some s.board[0] from by
      rw [show (0 : Int) = ((0 : Nat) : Int) from rfl, readAt_natCast]
      exact List.getElem?_eq_getElem hlen]
    rw [Option.some_bind, readAt_natCast, List.getElem?_eq_getElem hi, hget]
  · intro k s1 piece hp hdrop hne
    by_contra hy
    apply hne
    unfold drop at hdrop
    rw [hp] at hdrop
    simp only at hdrop
    split at hdrop
    · cases hdrop; rfl
    · rw [if_pos (by omega)] at hdrop
      cases hdrop; rfl

/-- C20 at `overhangState`, which `overhangPlay` reaches from the start. -/
theorem top_row_stays_empty_witness :
    run (initial 0) overhangPlay = some overhangState ∧
      ∃ row, overhangState.board[0]? = some row ∧ row.length = 10 ∧
        ∀ cell ∈ row, cell = Cell.empty :=
  ⟨run_overhangPlay, (top_row_stays_empty 0 overhangPlay overhangState run_overhangPlay).1⟩

/-! ## Falling to the floor -/

theorem run_append (l1 : List Stimulus) :
    ∀ (s : State) (l2 : List Stimulus),
      run s (l1 ++ l2) = (run s l1).bind (fun s1 => run s1 l2) := by
  induction l1 with
  | nil => intro s l2; simp [run]
  | cons st rest ih =>
    intro s l2
    simp only [List.cons_append, run]
    cases step s st with
    | none => rfl
    | some s2 => simp only [Option.some_bind]; exact ih s2 l2

theorem drop_fallingState :
    ∀ (k0 : Fin 7) (y : Fin 20), y.val + (tetrominoAt k0).shape.length < 20 →
      ∀ k : Fin 7, drop (fallingState k0 y.val) k = some (fallingState k0 (y.val + 1)) := by
  decide

theorem drop_fallingState_floor :
    ∀ (k0 k : Fin 7),
      1 ≤ 20 - (tetrominoAt k0).shape.length ∧
      ∃ newBoard,
        placePiece (pieceAt k0 4 ((20 - (tetrominoAt k0).shape.length : Nat) : Int))
          createEmptyBoard = some newBoard ∧
        newBoard.countP isFull = 0 ∧
        drop (fallingState k0 (20 - (tetrominoAt k0).shape.length)) k = some
          { board := newBoard, currentPiece := some (getRandomTetromino k),
            gameOver := false, score := 0, speed := INITIAL_SPEED } ∧
        isColliding (pieceAt k0 4 ((20 - (tetrominoAt k0).shape.length : Nat) : Int))
          createEmptyBoard = false := by
  intro k0 k
  have h : ∀ (k0 k : Fin 7),
      1 ≤ 20 - (tetrominoAt k0).shape.length ∧
      (placePiece (pieceAt k0 4 ((20 - (tetrominoAt k0).shape.length : Nat) : Int))
          createEmptyBoard).map (fun newBoard => newBoard.countP isFull) = some 0 ∧
      drop (fallingState k0 (20 - (tetrominoAt k0).shape.length)) k =
        (placePiece (pieceAt k0 4 ((20 - (tetrominoAt k0).shape.length : Nat) : Int))
          createEmptyBoard).map (fun newBoard =>
            { board := newBoard, currentPiece := some (getRandomTetromino k),
              gameOver := false, score := 0, speed := INITIAL_SPEED }) ∧
      isColliding (pieceAt k0 4 ((20 - (tetrominoAt k0).shape.length : Nat) : Int))
        createEmptyBoard = false := by
    decide
  obtain ⟨h1, h2, h3, h4⟩ := h k0 k
  cases hb : placePiece (pieceAt k0 4 ((20 - (tetrominoAt k0).shape.length : Nat) : Int))
      createEmptyBoard with
  | none => rw [hb] at h2; exact Option.noConfusion h2
  | some newBoard =>
    rw [hb] at h2 h3
    exact ⟨h1, newBoard, rfl, Option.some.inj h2, h3, h4⟩

theorem run_ticks_fallingState (k0 : Fin 7) (ks : List (Fin 7)) :
    ∀ (y : Nat), y + ks.length + (tetrominoAt k0).shape.length ≤ 20 →
      run (fallingState k0 y) (ks.map Stimulus.tick) =
        some (fallingState k0 (y + ks.length)) := by
  induction ks with
  | nil => intro y _; rfl
  | cons k rest ih =>
    intro y hle
    simp only [List.length_cons] at hle
    have hy : y < 20 := by omega
    have hstep := drop_fallingState k0 ⟨y, hy⟩ (by simp only; omega) k
    simp only [List.map_cons, run, step]
    rw [hstep, Option.some_bind, ih (y + 1) (by omega)]
    simp only [List.length_cons]
    congr 2
    omega
theorem initial_eq_fallingState : ∀ k0 : Fin 7, initial k0 = fallingState k0 0 := by
  decide

theorem tetromino_height :
    ∀ k0 : Fin 7, 1 ≤ (tetrominoAt k0).shape.length ∧ (tetrominoAt k0).shape.length ≤ 2 := by
  decide

/-- The handler `drop` called again and again with nothing in between, from the start with
the catalogue entry `k0` of height `h`: `n <= 20 - h` calls bring the piece to `(4, n)`, and
one call more after `20 - h` calls locks it in rows `20 - h` to `19`. -/
theorem drop_repeated_to_the_floor (k0 : Fin 7) (ks : List (Fin 7)) :
    (ks.length ≤ 20 - (tetrominoAt k0).shape.length →
      run (initial k0) (ks.map Stimulus.tick) = some
        { board := createEmptyBoard, currentPiece := some (pieceAt k0 4 ks.length),
          gameOver := false, score := 0, speed := INITIAL_SPEED }) ∧
    (ks.length = 20 - (tetrominoAt k0).shape.length → ∀ k : Fin 7,
      ∃ newBoard,
        placePiece (pieceAt k0 4 ks.length) createEmptyBoard = some newBoard ∧
        run (initial k0) ((ks ++ [k]).map Stimulus.tick) = some
          { board := newBoard, currentPiece := some (getRandomTetromino k),
            gameOver := false, score := 0, speed := INITIAL_SPEED } ∧
        (∀ (sy sx : Nat), occupied (tetrominoAt k0).shape sy sx = true →
          20 - (tetrominoAt k0).shape.length ≤ ks.length + sy ∧ ks.length + sy ≤ 19 ∧
          cellAt newBoard ((ks.length : Int) + sy) (4 + sx) =
            some (Cell.filled (tetrominoAt k0).color)) ∧
        (∀ (r c : Int),
          (¬ ∃ (sy sx : Nat), occupied (tetrominoAt k0).shape sy sx = true ∧
              r = (ks.length : Int) + sy ∧ c = 4 + sx) →
          cellAt newBoard r c = cellAt createEmptyBoard r c)) := by
  have hh := tetromino_height k0
  constructor
  · intro hle
    rw [initial_eq_fallingState, run_ticks_fallingState k0 ks 0 (by omega)]
    simp only [Nat.zero_add]
    rfl
  · intro hlen k
    obtain ⟨h1, newBoard, hb, hfull, hdrop, hfree⟩ := drop_fallingState_floor k0 k
    rw [← hlen] at hb hdrop hfree h1
    obtain ⟨b1, hb1, hcells⟩ := placePiece_spec (pieceAt k0 4 ks.length) createEmptyBoard hfree
    rw [hb] at hb1
    cases hb1
    refine ⟨newBoard, hb, ?_, ?_, ?_⟩
    · rw [List.map_append, run_append, initial_eq_fallingState,
        run_ticks_fallingState k0 ks 0 (by omega)]
      simp only [Nat.zero_add, Option.some_bind, List.map_cons, List.map_nil, run, step]
      rw [hdrop]
      rfl
    · intro sy sx hocc
      obtain ⟨row, v, hrow, _, _⟩ := (occupied_iff _ sy sx).mp hocc
      have hsy : sy < (tetrominoAt k0).shape.length := by
        rcases Nat.lt_or_ge sy (tetrominoAt k0).shape.length with h | h
        · exact h
        · rw [List.getElem?_eq_none h] at hrow; exact Option.noConfusion hrow
      refine ⟨by omega, by omega, ?_⟩
      rw [hcells]
      have hcov : covers (pieceAt k0 4 ks.length) ((ks.length : Int) + sy) (4 + sx) = true := by
        unfold covers
        exact (shapeCovers_iff _ _ _).mpr ⟨sy, sx, by simp [pieceAt], by simp [pieceAt], hocc⟩
      rw [if_pos hcov]
      rfl
    · intro r c hnot
      rw [hcells]
      have hcov : ¬ covers (pieceAt k0 4 ks.length) r c = true := by
        intro hc
        unfold covers at hc
        obtain ⟨sy, sx, h2, h3, hocc⟩ := (shapeCovers_iff _ _ _).mp hc
        apply hnot
        refine ⟨sy, sx, hocc, ?_, ?_⟩
        · simp only [pieceAt] at h2; omega
        · simp only [pieceAt] at h3; omega
      rw [if_neg hcov]

/-! ## The lock transition along a play -/

theorem run_lockPlay : run (initial 0) lockPlay = some lockState := by
  decide

/-- C5: in every Playing state a play from the start reaches, if the piece translated down
by 1 collides and `anchor.y >= 1`, the tick returns the state whose board is the row-cleared
placement of the piece on the old board, whose score is the old score plus 10 per row
cleared, whose piece is a catalogue entry at `(4, 0)`, and whose `gameOver` is still false,
whatever the new piece meets on the new board.  The score is taken within the range in which
the additions of line 92 are exact. -/
theorem drop_lock (k0 : Fin 7) (l : List Stimulus) (s : State) (piece : Piece) (k : Fin 7)
    (hrun : run (initial k0) l = some s)
    (hp : s.currentPiece = some piece) (hplay : s.gameOver = false)
    (hcol : isColliding { piece with pos := { x := piece.pos.x, y := piece.pos.y + 1 } }
      s.board = true)
    (hy : 1 ≤ piece.pos.y)
    (hscore : s.score + 10 * 20 ≤ maxSafeInteger) :
    ∃ newBoard, placePiece piece s.board = some newBoard ∧
      drop s k = some
        { board := (clearRows newBoard).1,
          currentPiece := some (getRandomTetromino k),
          gameOver := false,
          score := s.score + 10 * newBoard.countP isFull,
          speed := s.speed } ∧
      (clearRows newBoard).1 =
        List.replicate (newBoard.countP isFull) (List.replicate 10 Cell.empty) ++
          newBoard.filter (fun row => !isFull row) ∧
      newBoard.countP isFull ≤ 20 ∧
      (getRandomTetromino k).pos = { x := 4, y := 0 } ∧
      (∃ entry ∈ TETROMINOS, (getRandomTetromino k).tetromino = entry.2) := by
  have hs : Sound s := sound_run l (initial k0) s (sound_initial k0) hrun
  obtain ⟨p1, hp1, hfree⟩ := hs.piece
  rw [hp] at hp1
  cases hp1
  have hin : ∀ (sy sx : Nat), occupied piece.tetromino.shape sy sx = true →
      (cellAt s.board (piece.pos.y + sy) (piece.pos.x + sx)).isSome = true := by
    intro sy sx hocc
    rw [(isColliding_eq_false_iff piece s.board).mp (hfree hy) sy sx hocc]
    rfl
  obtain ⟨newBoard, hnb, hdrop⟩ := drop_of_lock_branch s piece k hp hplay hcol hy hin
  obtain ⟨hl, hW⟩ := placeRows_dims _ _ BOARD_WIDTH _ _ _ _ hnb hs.cols
  refine ⟨newBoard, hnb, hdrop, clearRows_fst newBoard 10 hW, ?_,
    (getRandomTetromino_catalog k).1, (getRandomTetromino_catalog k).2⟩
  have h1 : newBoard.countP isFull ≤ newBoard.length := List.countP_le_length _
  have h2 : newBoard.length = 20 := by rw [hl]; exact hs.rows
  omega

/-- C5 at `lockState`, which `lockPlay` reaches from the start: the O piece completes the
bottom row, which is cleared for 10 points. -/
theorem drop_lock_witness :
    run (initial 0) lockPlay = some lockState ∧
      lockState.score + 10 * 20 ≤ maxSafeInteger ∧
      drop lockState 5 = some
        { board :=
            List.replicate 19 (List.replicate 10 Cell.empty) ++
              [List.replicate 8 Cell.empty ++
                [Cell.filled "bg-green-500", Cell.filled "bg-green-500"]],
          currentPiece := some (getRandomTetromino 5),
          gameOver := false, score := 10, speed := INITIAL_SPEED } ∧
      ∃ newBoard, placePiece (pieceAt 3 8 18) lockState.board = some newBoard ∧
        drop lockState 5 = some
          { board := (clearRows newBoard).1,
            currentPiece := some (getRandomTetromino 5),
            gameOver := false,
            score := lockState.score + 10 * newBoard.countP isFull,
            speed := lockState.speed } :=
  ⟨run_lockPlay, by decide, by decide,
    match drop_lock 0 lockPlay lockState (pieceAt 3 8 18) 5 run_lockPlay rfl rfl (by decide)
      (by decide) (by decide) with
    | ⟨newBoard, h1, h2, _⟩ => ⟨newBoard, h1, h2⟩⟩

/-! ## Ticks in the mounted component -/

theorem componentTick_initial :
    ∀ (k0 k kr : Fin 7), componentTick (initial k0) k kr = some (initial kr) := by
  decide

theorem componentTicks_initial (l : List (Fin 7 × Fin 7)) :
    ∀ k0 : Fin 7, ∃ kr : Fin 7, componentTicks (initial k0) l = some (initial kr) := by
  induction l with
  | nil => intro k0; exact ⟨k0, rfl⟩
  | cons e rest ih =>
    intro k0
    obtain ⟨k, kr⟩ := e
    obtain ⟨kr1, h⟩ := ih kr
    refine ⟨kr1, ?_⟩
    simp only [componentTicks, componentTick_initial k0 k kr, Option.some_bind]
    exact h

/-- C16 fails in the component: from the start every tick is followed by the effect of
lines 118-124, which puts a new piece at `(4, 0)`.  After any number of ticks the state is
a starting state again, with the empty board and the piece at `(4, 0)`, so after two ticks
the anchor is not `(4, 2)` and no piece is ever locked; `drop` called twice in a row alone
would give `(4, 2)`. -/
theorem ticks_respawn_in_component :
    (∀ (k0 : Fin 7) (l : List (Fin 7 × Fin 7)),
      ∃ kr : Fin 7, componentTicks (initial k0) l = some
        { board := createEmptyBoard, currentPiece := some (getRandomTetromino kr),
          gameOver := false, score := 0, speed := INITIAL_SPEED } ∧
        (getRandomTetromino kr).pos = { x := 4, y := 0 }) ∧
      componentTicks (initial 3) [(0, 3), (0, 3)] = some
        { board := createEmptyBoard, currentPiece := some (pieceAt 3 4 0),
          gameOver := false, score := 0, speed := INITIAL_SPEED } ∧
      (drop (initial 3) 0).bind (fun s1 => drop s1 0) = some
        { board := createEmptyBoard, currentPiece := some (pieceAt 3 4 2),
          gameOver := false, score := 0, speed := INITIAL_SPEED } := by
  refine ⟨?_, by decide, by decide⟩
  intro k0 l
  obtain ⟨kr, h⟩ := componentTicks_initial l k0
  exact ⟨kr, h, (getRandomTetromino_catalog kr).1⟩

end Tetris
